import Mathlib

/-!
Movie Finder: request lifecycle and rating normalisation.

A shallow embedding of `src/App.jsx` (the `MovieFinder` component): the two
asynchronous handlers `searchMovies` and `getMovieDetails`, the handler
`goBackToResults`, and the pure helper `renderRatingStars`.

Modelling conventions.

* A handler is a closure over the state of the render in which it was
  created.  It is embedded as a function from that state (and the outside
  world) to the list of effects it performs, in program order: calls of the
  React state setters, network requests and console output.  The state after
  the handler has finished is the prior state with the setter calls applied
  in order (`run`).
* The outside world (`Env`) is the build-time variable `VITE_OMDB_API_KEY` and
  the outcome of `fetch(url)` followed by `response.json()`.
* JavaScript strings are Lean strings (sequences of Unicode scalar values;
  lone surrogates are not represented).
* JavaScript numbers are binary64 values, held as the rationals they stand
  for, together with `NaN`, `Infinity` and `-Infinity`.  What `parseFloat` and
  the operator `/` compute is rounded to the nearest binary64 value, a tie
  going to the even significand (`toBinary64`).  Negative zero is identified
  with zero.
-/

namespace MovieFinder

/-! ## JavaScript values -/

/-- A JavaScript value as it can come out of `response.json()`, together with
`undefined` (the value of a missing property). -/
inductive JSVal where
  | undefined : JSVal
  | null : JSVal
  | bool (b : Bool) : JSVal
  | num (q : ℚ) : JSVal
  | str (s : String) : JSVal
  | arr (items : List JSVal) : JSVal
  | obj (fields : List (String × JSVal)) : JSVal

instance : Inhabited JSVal := ⟨JSVal.undefined⟩

/-- The exception raised by a property access on `null` or `undefined`. -/
inductive JSError where
  | typeError : JSError

/-- Value of the last field named `key` in a decoded object (`JSON.parse`
keeps the last of several members with one name), `undefined` when there is
none. -/
def lookupField (fields : List (String × JSVal)) (key : String) : JSVal :=
  match fields.reverse.find? (fun kv => kv.1 == key) with
  | some kv => kv.2
  | none => JSVal.undefined

/-- Property access `v.key` for a property name that no built-in prototype
defines (the program reads `Response`, `Search` and `Error`): a `TypeError` on
`null` and `undefined`, the own property of an object, `undefined` on every
other value. -/
def getProp (v : JSVal) (key : String) : Except JSError JSVal :=
  match v with
  | JSVal.undefined => Except.error JSError.typeError
  | JSVal.null => Except.error JSError.typeError
  | JSVal.obj fields => Except.ok (lookupField fields key)
  | _ => Except.ok JSVal.undefined

/-- Strict equality `v === s` against a string literal. -/
def strictEqStr (v : JSVal) (s : String) : Bool :=
  match v with
  | JSVal.str t => t == s
  | _ => false

/-- JavaScript truthiness (`ToBoolean`). -/
def truthy (v : JSVal) : Bool :=
  match v with
  | JSVal.undefined => false
  | JSVal.null => false
  | JSVal.bool b => b
  | JSVal.num q => decide (q ≠ 0)
  | JSVal.str s => decide (s ≠ "")
  | JSVal.arr _ => true
  | JSVal.obj _ => true

/-- The operator `a || b`. -/
def jsOr (a b : JSVal) : JSVal :=
  if truthy a then a else b

/-! ## Strings -/

/-- White space and line terminators of ECMAScript, the characters removed by
`String.prototype.trim` and skipped by `parseFloat`. -/
def isWhiteSpace (c : Char) : Bool :=
  let n := c.toNat
  n == 0x09 || n == 0x0A || n == 0x0B || n == 0x0C || n == 0x0D || n == 0x20 ||
  n == 0xA0 || n == 0x1680 || (0x2000 ≤ n && n ≤ 0x200A) || n == 0x2028 ||
  n == 0x2029 || n == 0x202F || n == 0x205F || n == 0x3000 || n == 0xFEFF

/-- Removal of leading white space. -/
def trimStart (cs : List Char) : List Char :=
  cs.dropWhile isWhiteSpace

/-- Removal of trailing white space. -/
def trimEnd (cs : List Char) : List Char :=
  (cs.reverse.dropWhile isWhiteSpace).reverse

/-- The method `String.prototype.trim`. -/
def trim (s : String) : String :=
  String.mk (trimEnd (trimStart s.data))

/-- Upper-case hexadecimal digit of a number below sixteen. -/
def hexDigit (n : Nat) : Char :=
  if n < 10 then Char.ofNat (48 + n) else Char.ofNat (55 + n)

/-- The UTF-8 encoding of a character, as numbers below 256. -/
def utf8Bytes (c : Char) : List Nat :=
  let n := c.toNat
  if n < 0x80 then [n]
  else if n < 0x800 then [0xC0 + n / 64, 0x80 + n % 64]
  else if n < 0x10000 then [0xE0 + n / 4096, 0x80 + (n / 64) % 64, 0x80 + n % 64]
  else [0xF0 + n / 262144, 0x80 + (n / 4096) % 64, 0x80 + (n / 64) % 64, 0x80 + n % 64]

/-- Characters that `encodeURIComponent` leaves as they are: ASCII letters and
digits and the marks `- _ . ! ~ * ' ( )`. -/
def isUriUnreserved (c : Char) : Bool :=
  let n := c.toNat
  (65 ≤ n && n ≤ 90) || (97 ≤ n && n ≤ 122) || (48 ≤ n && n ≤ 57) ||
  n == 45 || n == 95 || n == 46 || n == 33 || n == 126 || n == 42 || n == 39 ||
  n == 40 || n == 41

/-- Escape of one character by `encodeURIComponent`. -/
def encodeChar (c : Char) : List Char :=
  if isUriUnreserved c then [c]
  else (utf8Bytes c).flatMap (fun b => ['%', hexDigit (b / 16), hexDigit (b % 16)])

/-- The function `encodeURIComponent` on a string of scalar values (on which
it does not throw). -/
def encodeURIComponent (s : String) : String :=
  String.mk (s.data.flatMap encodeChar)

/-! ## Component state, effects and the outside world -/

/-- The six `useState` cells of the component. -/
structure State where
  searchTerm : String
  movies : JSVal
  selectedMovie : JSVal
  loading : Bool
  error : JSVal
  isInitialState : Bool

/-- The state of the first render. -/
def initialState : State :=
  { searchTerm := "", movies := JSVal.arr [], selectedMovie := JSVal.null,
    loading := false, error := JSVal.str "", isInitialState := true }

/-- What a handler does, in program order. -/
inductive Effect where
  | setSearchTerm (s : String) : Effect
  | setMovies (v : JSVal) : Effect
  | setSelectedMovie (v : JSVal) : Effect
  | setLoading (b : Bool) : Effect
  | setError (v : JSVal) : Effect
  | setIsInitialState (b : Bool) : Effect
  | fetch (url : String) : Effect
  | consoleLog (label : String) : Effect
  | consoleError (label : String) : Effect

/-- Outcome of `await fetch(url)` followed by `await response.json()`. -/
inductive FetchOutcome where
  | networkError : FetchOutcome
  | invalidBody : FetchOutcome
  | decoded (data : JSVal) : FetchOutcome

/-- The outside world of the component. -/
structure Env where
  VITE_OMDB_API_KEY : Option String
  fetch : String → FetchOutcome

/-- The constant `API_KEY`: the configured key, or the built-in one when the
variable is unset or empty. -/
def API_KEY (env : Env) : String :=
  match env.VITE_OMDB_API_KEY with
  | some k => if k = "" then "55b491b1" else k
  | none => "55b491b1"

/-- Effect of one setter call on the state; the other effects leave it
alone. -/
def applyEffect (s : State) (e : Effect) : State :=
  match e with
  | Effect.setSearchTerm t => { s with searchTerm := t }
  | Effect.setMovies v => { s with movies := v }
  | Effect.setSelectedMovie v => { s with selectedMovie := v }
  | Effect.setLoading b => { s with loading := b }
  | Effect.setError v => { s with error := v }
  | Effect.setIsInitialState b => { s with isInitialState := b }
  | Effect.fetch _ => s
  | Effect.consoleLog _ => s
  | Effect.consoleError _ => s

/-- State after a handler that performed `effects` from state `s`. -/
def run (s : State) (effects : List Effect) : State :=
  effects.foldl applyEffect s

/-- The network requests among the effects. -/
def requests (effects : List Effect) : List String :=
  effects.filterMap (fun e => match e with
    | Effect.fetch url => some url
    | _ => none)

/-! ## The handlers -/

/-- The request address built by `searchMovies`. -/
def searchUrl (env : Env) (searchTerm : String) : String :=
  "https://www.omdbapi.com/?s=" ++ encodeURIComponent searchTerm ++ "&apikey=" ++ API_KEY env

/-- The request address built by `getMovieDetails`. -/
def detailUrl (env : Env) (imdbID : String) : String :=
  "https://www.omdbapi.com/?i=" ++ imdbID ++ "&plot=full&apikey=" ++ API_KEY env

/-- Lines 35-41 of `searchMovies`: the effects of the branch on
`data.Response`, and whether a property access threw. -/
def searchBranch (data : JSVal) : List Effect × Bool :=
  match getProp data "Response" with
  | Except.error _ => ([], true)
  | Except.ok r =>
    if strictEqStr r "True" then
      match getProp data "Search" with
      | Except.error _ => ([], true)
      | Except.ok l => ([Effect.setMovies l, Effect.setError (JSVal.str "")], false)
    else
      match getProp data "Error" with
      | Except.error _ => ([Effect.setMovies (JSVal.arr [])], true)
      | Except.ok e =>
        ([Effect.setMovies (JSVal.arr []),
          Effect.setError (jsOr e (JSVal.str "No movies found"))], false)

/-- The `try` block of `searchMovies` (lines 22-41): its effects up to the
point where it completes or throws, and whether it threw. -/
def searchTry (env : Env) (searchTerm : String) : List Effect × Bool :=
  let apiUrl := searchUrl env searchTerm
  let start := [Effect.setLoading true, Effect.setError (JSVal.str ""),
    Effect.setIsInitialState false, Effect.consoleLog "API Request:", Effect.fetch apiUrl]
  match env.fetch apiUrl with
  | FetchOutcome.networkError => (start, true)
  | FetchOutcome.invalidBody => (start, true)
  | FetchOutcome.decoded data =>
    let branch := searchBranch data
    (start ++ [Effect.consoleLog "API Response:"] ++ branch.1, branch.2)

/-- The `catch` block of `searchMovies` (lines 43-45). -/
def searchCatch : List Effect :=
  [Effect.consoleError "Search error:",
   Effect.setError (JSVal.str "Failed to fetch movies. Please try again."),
   Effect.setMovies (JSVal.arr [])]

/-- The handler `searchMovies` (lines 15-49). -/
def searchMovies (env : Env) (s : State) : List Effect :=
  if trim s.searchTerm = "" then
    [Effect.setError (JSVal.str "Please enter a movie title")]
  else
    let body := searchTry env s.searchTerm
    body.1 ++ (if body.2 then searchCatch else []) ++ [Effect.setLoading false]

/-- The `try` block of `getMovieDetails` (lines 53-61). -/
def detailTry (env : Env) (imdbID : String) : List Effect × Bool :=
  let url := detailUrl env imdbID
  let start := [Effect.setLoading true, Effect.fetch url]
  match env.fetch url with
  | FetchOutcome.networkError => (start, true)
  | FetchOutcome.invalidBody => (start, true)
  | FetchOutcome.decoded data =>
    match getProp data "Response" with
    | Except.error _ => (start, true)
    | Except.ok r =>
      if strictEqStr r "True" then (start ++ [Effect.setSelectedMovie data], false)
      else (start ++ [Effect.setError (JSVal.str "Failed to fetch movie details")], false)

/-- The handler `getMovieDetails` (lines 51-67); the identifier is a
string. -/
def getMovieDetails (env : Env) (imdbID : String) : List Effect :=
  let body := detailTry env imdbID
  body.1 ++ (if body.2 then [Effect.setError (JSVal.str "Error loading movie details")] else [])
    ++ [Effect.setLoading false]

/-- The handler `goBackToResults` (lines 80-82). -/
def goBackToResults : List Effect :=
  [Effect.setSelectedMovie JSVal.null]

/-- The condition `!loading && !selectedMovie && movies.length > 0` under
which the result grid is rendered (line 196), evaluated left to right; `none`
when `movies.length` is read and `movies` is not an array, a case that is not
modelled. -/
def showsResults (s : State) : Option Bool :=
  if s.loading then some false
  else if truthy s.selectedMovie then some false
  else match s.movies with
    | JSVal.arr items => some (decide (0 < items.length))
    | _ => none

/-- The condition under which the detail view is rendered (line 259). -/
def showsDetail (s : State) : Bool :=
  truthy s.selectedMovie

/-- The condition under which the error banner is rendered (line 165). -/
def showsError (s : State) : Bool :=
  truthy s.error

/-- The condition under which the welcome panel of the first render is
rendered (line 177). -/
def showsIdle (s : State) : Bool :=
  s.isInitialState

/-! ## Numbers and the rating stars -/

/-- A JavaScript number: `NaN`, `Infinity`, `-Infinity`, or a finite value,
held as the rational it stands for. -/
inductive JSNum where
  | nan : JSNum
  | posInf : JSNum
  | negInf : JSNum
  | fin (q : ℚ) : JSNum
  deriving DecidableEq

/-- Unary minus. -/
def JSNum.neg (x : JSNum) : JSNum :=
  match x with
  | JSNum.nan => JSNum.nan
  | JSNum.posInf => JSNum.negInf
  | JSNum.negInf => JSNum.posInf
  | JSNum.fin q => JSNum.fin (-q)

/-- Rounding of a rational to the nearest integer, a half going to the even
neighbour. -/
def roundHalfEven (r : ℚ) : ℤ :=
  if r - (⌊r⌋ : ℚ) < 1 / 2 then ⌊r⌋
  else if 1 / 2 < r - (⌊r⌋ : ℚ) then ⌊r⌋ + 1
  else if ⌊r⌋ % 2 = 0 then ⌊r⌋ else ⌊r⌋ + 1

/-- The power `2 ^ k` for an integer `k`. -/
def pow2 (k : ℤ) : ℚ :=
  if 0 ≤ k then ((2 ^ k.toNat : ℕ) : ℚ) else 1 / ((2 ^ (-k).toNat : ℕ) : ℚ)

/-- Number of halvings that take `n` below two, with at most `fuel` of them
counted. -/
def halvings : ℕ → ℕ → ℕ
  | 0, _ => 0
  | fuel + 1, n => if n < 2 then 0 else halvings fuel (n / 2) + 1

/-- The binary exponent of a positive rational `q`: the integer `e` with
`2 ^ e ≤ q < 2 ^ (e + 1)`. -/
def binaryExponent (q : ℚ) : ℤ :=
  let e : ℤ := (halvings q.num.natAbs q.num.natAbs : ℤ) - (halvings q.den q.den : ℤ)
  if pow2 e ≤ q then e else e - 1

/-- The binary64 value nearest to a positive rational `q`, a tie going to the
even significand; `none` when it is too large for a finite value.  The
significand has 53 bits and the least exponent is that of the subnormal
values. -/
def roundMagnitude (q : ℚ) : Option ℚ :=
  let quantum := pow2 (max (binaryExponent q) (-1022) - 52)
  let w := (roundHalfEven (q / quantum) : ℚ) * quantum
  if w < pow2 1024 then some w else none

/-- The binary64 number that stands for the real number `q`: the nearest
representable value, or an infinity on overflow. -/
def toBinary64 (q : ℚ) : JSNum :=
  if q = 0 then JSNum.fin 0
  else if 0 < q then
    match roundMagnitude q with
    | some w => JSNum.fin w
    | none => JSNum.posInf
  else
    match roundMagnitude (-q) with
    | some w => JSNum.fin (-w)
    | none => JSNum.negInf

/-- A rational that is a finite binary64 value: an integer significand below
`2 ^ 53` in magnitude times a power of two that is at least `2 ^ (-1074)`,
below `2 ^ 1024` in magnitude. -/
def IsBinary64 (v : ℚ) : Prop :=
  ∃ m k : ℤ, |m| < 2 ^ 53 ∧ -1074 ≤ k ∧ v = (m : ℚ) * 2 ^ k ∧ |v| < 2 ^ (1024 : ℤ)

/-- Division `x / d` by a positive constant, rounded to binary64. -/
def JSNum.divBy (x : JSNum) (d : ℚ) : JSNum :=
  match x with
  | JSNum.fin q => toBinary64 (q / d)
  | other => other

/-- The function `isNaN` on a number. -/
def isNaN (x : JSNum) : Bool :=
  match x with
  | JSNum.nan => true
  | _ => false

/-- The function `Math.round`: the nearest integer, a half going up. -/
def mathRound (x : JSNum) : JSNum :=
  match x with
  | JSNum.fin q => JSNum.fin (⌊q + 1 / 2⌋ : ℤ)
  | other => other

/-- The comparison `i < x` of an index with a number. -/
def ltNum (i : Nat) (x : JSNum) : Bool :=
  match x with
  | JSNum.nan => false
  | JSNum.posInf => true
  | JSNum.negInf => false
  | JSNum.fin q => decide ((i : ℚ) < q)

/-- Value of a string of decimal digits. -/
def digitsValue (ds : List Char) : Nat :=
  ds.foldl (fun acc c => 10 * acc + (c.toNat - 48)) 0

/-- The exponent denoted by the start of `rest`, an optional `ExponentPart` of
the grammar of numeric strings: `e` or `E`, an optional sign and at least one
digit; zero when there is no such part. -/
def scanExponent (rest : List Char) : ℤ :=
  match rest with
  | [] => 0
  | c :: r =>
    if c = 'e' ∨ c = 'E' then
      match r with
      | [] => 0
      | d :: t =>
        if d = '-' then
          (if (t.takeWhile Char.isDigit).isEmpty then 0
           else -((digitsValue (t.takeWhile Char.isDigit) : ℕ) : ℤ))
        else if d = '+' then ((digitsValue (t.takeWhile Char.isDigit) : ℕ) : ℤ)
        else ((digitsValue (r.takeWhile Char.isDigit) : ℕ) : ℤ)
    else 0

/-- Value of the longest prefix of `cs` that is a `StrUnsignedDecimalLiteral`:
the word `Infinity`, or digits with an optional fraction and an optional
exponent, or a point followed by digits and an optional exponent, as the
binary64 value nearest to the number the prefix denotes (every digit counts,
as in the engines that round correctly); `NaN` when no prefix is one. -/
def parseUnsigned (cs : List Char) : JSNum :=
  if "Infinity".data.isPrefixOf cs then JSNum.posInf
  else
    let intDigits := cs.takeWhile Char.isDigit
    let rest := cs.dropWhile Char.isDigit
    let fracDigits := match rest with
      | [] => []
      | c :: t => if c = '.' then t.takeWhile Char.isDigit else []
    let tail := match rest with
      | [] => []
      | c :: t => if c = '.' then t.dropWhile Char.isDigit else rest
    if intDigits.isEmpty && fracDigits.isEmpty then JSNum.nan
    else toBinary64
      (((digitsValue intDigits : ℚ) + (digitsValue fracDigits : ℚ) / 10 ^ fracDigits.length)
        * 10 ^ scanExponent tail)

/-- The function `parseFloat` on a string: leading white space is skipped, an
optional sign is read, and the longest numeric prefix is evaluated. -/
def parseFloat (cs : List Char) : JSNum :=
  match trimStart cs with
  | [] => JSNum.nan
  | c :: r =>
    if c = '-' then (parseUnsigned r).neg
    else if c = '+' then parseUnsigned r
    else parseUnsigned (c :: r)

/-- The method `String.prototype.split` with a one-character separator, on
lists of characters. -/
def splitOn (sep : Char) : List Char → List (List Char)
  | [] => [[]]
  | c :: cs =>
    if c = sep then [] :: splitOn sep cs
    else match splitOn sep cs with
      | [] => [[c]]
      | p :: ps => (c :: p) :: ps

/-- The value of `numRating` after lines 102-110 of `renderRatingStars`. -/
def numRating (rating : String) : JSNum :=
  if '/' ∈ rating.data then
    let parts := splitOn '/' rating.data
    let n := parseFloat (parts.headD [])
    if parts.get? 1 = some "100".data then n.divBy 10 else n
  else parseFloat rating.data

/-- The value of `starsCount` (line 116) in `renderRatingStars`, `none` when
the function has returned `null` before computing it (lines 99 and 113). -/
def starsCount (rating : String) : Option JSNum :=
  if rating = "" ∨ rating = "N/A" then none
  else if isNaN (numRating rating) then none
  else some (mathRound ((numRating rating).divBy 2))

/-- The function `renderRatingStars` (lines 98-129): `none` for `null`, and
otherwise, for each of the five stars in order, whether it is drawn filled
(`i < starsCount`). -/
def renderRatingStars (rating : String) : Option (List Bool) :=
  (starsCount rating).map (fun n => (List.range 5).map (fun i => ltNum i n))

/-! ## The rating as the specification words it -/

/-- The number that a string of decimal digits denotes: each digit counts
for its value times the power of ten of its place. -/
def numeralValue : List Char → ℕ
  | [] => 0
  | c :: cs => (c.toNat - 48) * 10 ^ cs.length + numeralValue cs

/-- An unsigned decimal number written in full: digits, optionally followed
by a point and more digits; `none` for any other text. -/
def unsignedDecimal (cs : List Char) : Option ℚ :=
  match splitOn '.' cs with
  | [ds] =>
    if ds ≠ [] ∧ ds.all Char.isDigit then some (numeralValue ds : ℚ) else none
  | [ds, fs] =>
    if ds ≠ [] ∧ ds.all Char.isDigit ∧ fs ≠ [] ∧ fs.all Char.isDigit then
      some ((numeralValue ds : ℚ) + (numeralValue fs : ℚ) / 10 ^ fs.length)
    else none
  | _ => none

/-- A decimal number written in full, with an optional minus sign in front;
`none` for any other text. -/
def decimalNumber (cs : List Char) : Option ℚ :=
  match cs with
  | [] => none
  | c :: r => if c = '-' then (unsignedDecimal r).map (fun q => -q) else unsignedDecimal cs

/-- A whole number written in full with an optional sign in front, as in the
exponent of a number in scientific notation; `none` for any other text. -/
def signedInteger (cs : List Char) : Option ℤ :=
  match cs with
  | [] => none
  | c :: r =>
    if c = '-' then
      (if r ≠ [] ∧ r.all Char.isDigit then some (-(numeralValue r : ℤ)) else none)
    else if c = '+' then
      (if r ≠ [] ∧ r.all Char.isDigit then some (numeralValue r : ℤ) else none)
    else if cs.all Char.isDigit then some (numeralValue cs : ℤ) else none

/-- An unsigned number written in full in decimal notation, or in scientific
notation with `e` or `E` before the exponent; `none` for any other text. -/
def unsignedNumber (cs : List Char) : Option ℚ :=
  match cs.dropWhile (fun c => !(c == 'e' || c == 'E')) with
  | [] => unsignedDecimal cs
  | _ :: ex =>
    match unsignedDecimal (cs.takeWhile (fun c => !(c == 'e' || c == 'E'))),
        signedInteger ex with
    | some m, some e => some (m * 10 ^ e)
    | _, _ => none

/-- The number that a text denotes, when the text is a number written in full
with an optional minus sign in front; `none` for any other text. -/
def numberDenoted (cs : List Char) : Option ℚ :=
  match cs with
  | [] => none
  | c :: r => if c = '-' then (unsignedNumber r).map (fun q => -q) else unsignedNumber cs

/-- The value `v` of a rating text in the words of the specification, in
exact arithmetic: for a text `a/b` the number `a`, divided by ten exactly when
`b` is `100`; for a text without a slash the number the text denotes. -/
def referenceValue (text : String) : Option ℚ :=
  match splitOn '/' text.data with
  | [a] => numberDenoted a
  | [a, b] => (numberDenoted a).map (fun v => if b = "100".data then v / 10 else v)
  | _ => none

/-- The value `v` of a rating text in the words of the specification, with
the numbers of JavaScript: for a text `a/b` the binary64 number nearest to the
number `a`, divided by ten in binary64 exactly when `b` is `100`; for a text
without a slash the binary64 number nearest to the number the text denotes. -/
def referenceNumber (text : String) : Option JSNum :=
  match splitOn '/' text.data with
  | [a] => (numberDenoted a).map toBinary64
  | [a, b] =>
    (numberDenoted a).map
      (fun v => if b = "100".data then (toBinary64 v).divBy 10 else toBinary64 v)
  | _ => none

/-- The three forms of a rating text that the specification names: a decimal
number followed by `/10`, a decimal number followed by `/100`, and a bare
decimal number. -/
def isRatingForm (text : String) : Bool :=
  match splitOn '/' text.data with
  | [a] => (decimalNumber a).isSome
  | [a, b] => (decimalNumber a).isSome && (b = "10".data || b = "100".data)
  | _ => false

/-- Whether a text starts with an unsigned number as `parseFloat` reads one: a
digit, a point followed by a digit, or the word `Infinity`. -/
def startsUnsigned (cs : List Char) : Bool :=
  "Infinity".data.isPrefixOf cs ||
  match cs with
  | [] => false
  | c :: r => c.isDigit || (c = '.' && (match r with
    | [] => false
    | d :: _ => d.isDigit))

/-- Whether a text starts, after optional white space and an optional sign,
with a number. -/
def startsWithNumber (cs : List Char) : Bool :=
  match trimStart cs with
  | [] => false
  | c :: r => if c = '-' ∨ c = '+' then startsUnsigned r else startsUnsigned (c :: r)

/-- The part of a rating text that is parsed: the text before the first
slash, the whole text when it has none. -/
def leadingPart (text : String) : List Char :=
  text.data.takeWhile (fun c => c ≠ '/')

/-! ## Sample inputs -/

/-- Two summary records as the remote service returns them. -/
def sampleRecords : List JSVal :=
  [JSVal.obj [("Title", JSVal.str "The Matrix"), ("Year", JSVal.str "1999"),
     ("imdbID", JSVal.str "tt0133093"), ("Type", JSVal.str "movie"), ("Poster", JSVal.str "N/A")],
   JSVal.obj [("Title", JSVal.str "The Matrix Reloaded"), ("Year", JSVal.str "2003"),
     ("imdbID", JSVal.str "tt0234215"), ("Type", JSVal.str "movie"), ("Poster", JSVal.str "N/A")]]

/-- A successful search response. -/
def sampleSearchOk : JSVal :=
  JSVal.obj [("Search", JSVal.arr sampleRecords), ("totalResults", JSVal.str "2"),
    ("Response", JSVal.str "True")]

/-- The failure response of the remote service for a title it does not know. -/
def sampleSearchFail : JSVal :=
  JSVal.obj [("Response", JSVal.str "False"), ("Error", JSVal.str "Movie not found!")]

/-- A successful detail response. -/
def sampleDetailOk : JSVal :=
  JSVal.obj [("Title", JSVal.str "The Matrix"), ("Year", JSVal.str "1999"),
    ("imdbID", JSVal.str "tt0133093"), ("Response", JSVal.str "True")]

/-- A failed detail response. -/
def sampleDetailFail : JSVal :=
  JSVal.obj [("Response", JSVal.str "False"), ("Error", JSVal.str "Incorrect IMDb ID.")]

/-- A world in which every request is answered with `data`. -/
def answering (data : JSVal) : Env :=
  { VITE_OMDB_API_KEY := none, fetch := fun _ => FetchOutcome.decoded data }

/-- A world in which every request gets `outcome`. -/
def failing (outcome : FetchOutcome) : Env :=
  { VITE_OMDB_API_KEY := none, fetch := fun _ => outcome }

/-- The first render with `Matrix` typed into the search box. -/
def typedMatrix : State :=
  { initialState with searchTerm := "Matrix" }

/-- The result list for `Matrix` on display. -/
def listMatrix : State :=
  { searchTerm := "Matrix", movies := JSVal.arr sampleRecords, selectedMovie := JSVal.null,
    loading := false, error := JSVal.str "", isInitialState := false }

/-- The detail view of a record, with `Matrix` still in the search box. -/
def detailMatrix : State :=
  { listMatrix with selectedMovie := sampleDetailOk }

/-- A result list on display with only blanks in the search box. -/
def listBlank : State :=
  { listMatrix with searchTerm := "  \t " }

/-- The result list for `Matrix` on display under the banner left by a failed
detail fetch. -/
def listWithError : State :=
  { listMatrix with error := JSVal.str "Failed to fetch movie details" }

/-! ## Helper lemmas -/

theorem strictEqStr_true_iff (v : JSVal) (s : String) :
    strictEqStr v s = true ↔ v = JSVal.str s := by
  cases v <;> simp [strictEqStr]

theorem strictEqStr_false_of_ne (v : JSVal) (s : String) (h : v ≠ JSVal.str s) :
    strictEqStr v s = false := by
  cases hb : strictEqStr v s
  · rfl
  · exact absurd ((strictEqStr_true_iff v s).1 hb) h

theorem trim_eq_empty_of_blank (s : String)
    (h : ∀ c ∈ s.data, isWhiteSpace c = true) : trim s = "" := by
  have h1 : trimStart s.data = [] := by
    unfold trimStart
    exact List.dropWhile_eq_nil_iff.2 h
  unfold trim
  rw [h1]
  rfl

theorem getProp_ok_of_ok (data : JSVal) (k k2 : String) (r : JSVal)
    (h : getProp data k = Except.ok r) : ∃ v, getProp data k2 = Except.ok v := by
  cases data <;> simp [getProp] at h ⊢

/-! ## The search handler -/

/-- Claim C1: after a search with a non-blank term whose decoded response has
`Response` exactly `"True"` and a list `Search`, `movies` is that very list
(same elements, same order) and `error` is the empty string. -/
theorem searchMovies_success_movies (env : Env) (s : State) (data : JSVal)
    (items : List JSVal)
    (hterm : trim s.searchTerm ≠ "")
    (hfetch : env.fetch (searchUrl env s.searchTerm) = FetchOutcome.decoded data)
    (hresp : getProp data "Response" = Except.ok (JSVal.str "True"))
    (hsearch : getProp data "Search" = Except.ok (JSVal.arr items)) :
    (run s (searchMovies env s)).movies = JSVal.arr items ∧
    (run s (searchMovies env s)).error = JSVal.str "" := by
  simp [searchMovies, hterm, searchTry, hfetch, searchBranch, hresp, hsearch, strictEqStr,
    run, applyEffect]

theorem searchMovies_success_movies_witness :
    trim typedMatrix.searchTerm ≠ "" ∧
    (run typedMatrix (searchMovies (answering sampleSearchOk) typedMatrix)).movies
      = JSVal.arr sampleRecords ∧
    (run typedMatrix (searchMovies (answering sampleSearchOk) typedMatrix)).error
      = JSVal.str "" :=
  ⟨by decide,
   searchMovies_success_movies (answering sampleSearchOk) typedMatrix sampleSearchOk
     sampleRecords (by decide) rfl rfl rfl⟩

/-- Claim C2: after a search with a non-blank term whose decoded response has
a `Response` field other than `"True"`, `movies` is the empty list and `error`
is the text of the `Error` field when that is a non-empty string, and
`"No movies found"` when the field is missing or the empty string. -/
theorem searchMovies_failure_error (env : Env) (s : State) (data r : JSVal)
    (hterm : trim s.searchTerm ≠ "")
    (hfetch : env.fetch (searchUrl env s.searchTerm) = FetchOutcome.decoded data)
    (hresp : getProp data "Response" = Except.ok r)
    (hne : r ≠ JSVal.str "True") :
    (run s (searchMovies env s)).movies = JSVal.arr [] ∧
    (∀ msg : String, getProp data "Error" = Except.ok (JSVal.str msg) → msg ≠ "" →
      (run s (searchMovies env s)).error = JSVal.str msg) ∧
    (getProp data "Error" = Except.ok JSVal.undefined ∨
      getProp data "Error" = Except.ok (JSVal.str "") →
      (run s (searchMovies env s)).error = JSVal.str "No movies found") := by
  have hs := strictEqStr_false_of_ne r "True" hne
  obtain ⟨e, he⟩ := getProp_ok_of_ok data "Response" "Error" r hresp
  refine ⟨?_, ?_, ?_⟩
  · simp [searchMovies, hterm, searchTry, hfetch, searchBranch, hresp, hs, he, run, applyEffect]
  · intro msg hmsg hmsgne
    simp [searchMovies, hterm, searchTry, hfetch, searchBranch, hresp, hs, hmsg, run,
      applyEffect, jsOr, truthy, hmsgne]
  · intro h
    rcases h with h | h <;>
      simp [searchMovies, hterm, searchTry, hfetch, searchBranch, hresp, hs, h, run,
        applyEffect, jsOr, truthy]

theorem searchMovies_failure_error_witness :
    (run typedMatrix (searchMovies (answering sampleSearchFail) typedMatrix)).movies
      = JSVal.arr [] ∧
    (run typedMatrix (searchMovies (answering sampleSearchFail) typedMatrix)).error
      = JSVal.str "Movie not found!" :=
  have h := searchMovies_failure_error (answering sampleSearchFail) typedMatrix
    sampleSearchFail (JSVal.str "False") (by decide) rfl rfl (by simp)
  ⟨h.1, h.2.1 "Movie not found!" rfl (by decide)⟩

/-- Claim C3: with a search term that is empty or made of white space only,
`searchMovies` issues no request, sets `error` to
`"Please enter a movie title"`, never calls `setLoading(true)` and leaves
`movies` and `selectedMovie` as they were. -/
theorem searchMovies_blank (env : Env) (s : State)
    (hblank : ∀ c ∈ s.searchTerm.data, isWhiteSpace c = true) :
    requests (searchMovies env s) = [] ∧
    (run s (searchMovies env s)).error = JSVal.str "Please enter a movie title" ∧
    Effect.setLoading true ∉ searchMovies env s ∧
    (run s (searchMovies env s)).movies = s.movies ∧
    (run s (searchMovies env s)).selectedMovie = s.selectedMovie := by
  have h := trim_eq_empty_of_blank s.searchTerm hblank
  simp [searchMovies, h, requests, run, applyEffect]

theorem searchMovies_blank_witness :
    requests (searchMovies (answering sampleSearchOk) listBlank) = [] ∧
    (run listBlank (searchMovies (answering sampleSearchOk) listBlank)).error
      = JSVal.str "Please enter a movie title" ∧
    Effect.setLoading true ∉ searchMovies (answering sampleSearchOk) listBlank ∧
    (run listBlank (searchMovies (answering sampleSearchOk) listBlank)).movies
      = listBlank.movies ∧
    (run listBlank (searchMovies (answering sampleSearchOk) listBlank)).selectedMovie
      = listBlank.selectedMovie :=
  searchMovies_blank (answering sampleSearchOk) listBlank (by decide)

/-! ## The detail handler and back navigation -/

/-- Claim C4: from a state showing a result list (`selectedMovie` null,
`loading` false), a successful `getMovieDetails` puts the response in
`selectedMovie`, and `goBackToResults` after it gives back the prior state in
every field; `goBackToResults` issues no request.  This holds for every
identifier, in particular for that of a record of the list. -/
theorem details_then_back_roundtrip (env : Env) (s : State) (imdbID : String) (data : JSVal)
    (hsel : s.selectedMovie = JSVal.null)
    (hload : s.loading = false)
    (hfetch : env.fetch (detailUrl env imdbID) = FetchOutcome.decoded data)
    (hresp : getProp data "Response" = Except.ok (JSVal.str "True")) :
    (run s (getMovieDetails env imdbID)).selectedMovie = data ∧
    run (run s (getMovieDetails env imdbID)) goBackToResults = s ∧
    requests goBackToResults = [] := by
  cases s
  simp only at hsel hload
  subst hsel hload
  simp [getMovieDetails, detailTry, hfetch, hresp, strictEqStr, run, applyEffect,
    goBackToResults, requests]

theorem details_then_back_roundtrip_witness :
    (run listMatrix (getMovieDetails (answering sampleDetailOk) "tt0133093")).selectedMovie
      = sampleDetailOk ∧
    run (run listMatrix (getMovieDetails (answering sampleDetailOk) "tt0133093"))
      goBackToResults = listMatrix ∧
    requests goBackToResults = [] :=
  details_then_back_roundtrip (answering sampleDetailOk) listMatrix "tt0133093"
    sampleDetailOk rfl rfl rfl rfl

/-- Claim C8: when a detail fetch fails, `selectedMovie` and `movies` stay as
they were; `error` becomes `"Failed to fetch movie details"` when the decoded
response has a `Response` field other than `"True"`, and
`"Error loading movie details"` when the request or the decoding of the body
throws. -/
theorem getMovieDetails_failure (env : Env) (s : State) (imdbID : String) :
    (∀ data r : JSVal, env.fetch (detailUrl env imdbID) = FetchOutcome.decoded data →
      getProp data "Response" = Except.ok r → r ≠ JSVal.str "True" →
      (run s (getMovieDetails env imdbID)).selectedMovie = s.selectedMovie ∧
      (run s (getMovieDetails env imdbID)).movies = s.movies ∧
      (run s (getMovieDetails env imdbID)).error = JSVal.str "Failed to fetch movie details") ∧
    (env.fetch (detailUrl env imdbID) = FetchOutcome.networkError ∨
      env.fetch (detailUrl env imdbID) = FetchOutcome.invalidBody →
      (run s (getMovieDetails env imdbID)).selectedMovie = s.selectedMovie ∧
      (run s (getMovieDetails env imdbID)).movies = s.movies ∧
      (run s (getMovieDetails env imdbID)).error = JSVal.str "Error loading movie details") := by
  refine ⟨?_, ?_⟩
  · intro data r hfetch hresp hne
    have hs := strictEqStr_false_of_ne r "True" hne
    simp [getMovieDetails, detailTry, hfetch, hresp, hs, run, applyEffect]
  · intro h
    rcases h with h | h <;> simp [getMovieDetails, detailTry, h, run, applyEffect]

theorem getMovieDetails_failure_witness :
    ((run listMatrix (getMovieDetails (answering sampleDetailFail) "tt0")).selectedMovie
        = listMatrix.selectedMovie ∧
      (run listMatrix (getMovieDetails (answering sampleDetailFail) "tt0")).movies
        = listMatrix.movies ∧
      (run listMatrix (getMovieDetails (answering sampleDetailFail) "tt0")).error
        = JSVal.str "Failed to fetch movie details") ∧
    ((run listMatrix (getMovieDetails (failing FetchOutcome.networkError) "tt0")).selectedMovie
        = listMatrix.selectedMovie ∧
      (run listMatrix (getMovieDetails (failing FetchOutcome.networkError) "tt0")).movies
        = listMatrix.movies ∧
      (run listMatrix (getMovieDetails (failing FetchOutcome.networkError) "tt0")).error
        = JSVal.str "Error loading movie details") :=
  ⟨(getMovieDetails_failure (answering sampleDetailFail) listMatrix "tt0").1
      sampleDetailFail (JSVal.str "False") rfl rfl (by simp),
   (getMovieDetails_failure (failing FetchOutcome.networkError) listMatrix "tt0").2
      (Or.inl rfl)⟩

/-! ## Failures and prior states of a search -/

/-- Claim C9, as stated, fails: a decoded payload with the success
discriminant and no `Search` list leaves `movies` undefined and `error` empty,
and a payload that is not an object gives the error `"No movies found"`. -/
theorem searchMovies_unexpected_shape_counterexample :
    ((run typedMatrix (searchMovies (answering (JSVal.obj [("Response", JSVal.str "True")]))
        typedMatrix)).movies = JSVal.undefined ∧
      (run typedMatrix (searchMovies (answering (JSVal.obj [("Response", JSVal.str "True")]))
        typedMatrix)).error = JSVal.str "") ∧
    (run typedMatrix (searchMovies (answering (JSVal.num 42)) typedMatrix)).error
      = JSVal.str "No movies found" ∧
    ¬ ((run typedMatrix (searchMovies (answering (JSVal.obj [("Response", JSVal.str "True")]))
          typedMatrix)).error = JSVal.str "Failed to fetch movies. Please try again." ∧
        (run typedMatrix (searchMovies (answering (JSVal.obj [("Response", JSVal.str "True")]))
          typedMatrix)).movies = JSVal.arr []) := by
  refine ⟨⟨rfl, rfl⟩, rfl, ?_⟩
  intro h
  have h2 : (JSVal.undefined : JSVal) = JSVal.arr [] := h.2
  exact JSVal.noConfusion h2

/-- Claim C9, amended: after a search with a non-blank term in which the
request fails, the body cannot be decoded, or the body decodes to `null` (so
that reading `Response` throws), `error` is
`"Failed to fetch movies. Please try again."` and `movies` is the empty
list. -/
theorem searchMovies_transport_failure (env : Env) (s : State)
    (hterm : trim s.searchTerm ≠ "")
    (hfail : env.fetch (searchUrl env s.searchTerm) = FetchOutcome.networkError ∨
      env.fetch (searchUrl env s.searchTerm) = FetchOutcome.invalidBody ∨
      ∃ data, env.fetch (searchUrl env s.searchTerm) = FetchOutcome.decoded data ∧
        getProp data "Response" = Except.error JSError.typeError) :
    (run s (searchMovies env s)).error
      = JSVal.str "Failed to fetch movies. Please try again." ∧
    (run s (searchMovies env s)).movies = JSVal.arr [] := by
  rcases hfail with h | h | ⟨data, h, hd⟩
  · simp [searchMovies, hterm, searchTry, h, searchCatch, run, applyEffect]
  · simp [searchMovies, hterm, searchTry, h, searchCatch, run, applyEffect]
  · simp [searchMovies, hterm, searchTry, h, searchBranch, hd, searchCatch, run, applyEffect]

theorem searchMovies_transport_failure_witness :
    trim listMatrix.searchTerm ≠ "" ∧
    (run listMatrix (searchMovies (failing FetchOutcome.invalidBody) listMatrix)).error
      = JSVal.str "Failed to fetch movies. Please try again." ∧
    (run listMatrix (searchMovies (failing FetchOutcome.invalidBody) listMatrix)).movies
      = JSVal.arr [] :=
  ⟨by decide,
   searchMovies_transport_failure (failing FetchOutcome.invalidBody) listMatrix (by decide)
     (Or.inr (Or.inl rfl))⟩

/-- Claim C10, as stated, fails: a successful search started while a detail
record is active leaves that record active, so the detail view stays on
display and the result grid is not rendered. -/
theorem searchMovies_keeps_detail_counterexample :
    trim detailMatrix.searchTerm ≠ "" ∧
    (run detailMatrix (searchMovies (answering sampleSearchOk) detailMatrix)).selectedMovie
      = sampleDetailOk ∧
    (run detailMatrix (searchMovies (answering sampleSearchOk) detailMatrix)).selectedMovie
      ≠ JSVal.null ∧
    showsDetail (run detailMatrix (searchMovies (answering sampleSearchOk) detailMatrix))
      = true ∧
    showsResults (run detailMatrix (searchMovies (answering sampleSearchOk) detailMatrix))
      = some false := by
  refine ⟨by decide, rfl, ?_, rfl, rfl⟩
  intro h
  have h2 : sampleDetailOk = JSVal.null := h
  exact JSVal.noConfusion h2

/-- Claim C10, amended: after a search with a non-blank term and a successful
response, `movies` is the returned list, `error` is empty, `loading` is false
and `selectedMovie` is what it was before; so from a prior state without an
active detail record the handler ends with no detail record active and the
returned list, when it has an element, on display. -/
theorem searchMovies_success_state (env : Env) (s : State) (data : JSVal)
    (items : List JSVal)
    (hterm : trim s.searchTerm ≠ "")
    (hfetch : env.fetch (searchUrl env s.searchTerm) = FetchOutcome.decoded data)
    (hresp : getProp data "Response" = Except.ok (JSVal.str "True"))
    (hsearch : getProp data "Search" = Except.ok (JSVal.arr items)) :
    (run s (searchMovies env s)).movies = JSVal.arr items ∧
    (run s (searchMovies env s)).error = JSVal.str "" ∧
    (run s (searchMovies env s)).loading = false ∧
    (run s (searchMovies env s)).selectedMovie = s.selectedMovie ∧
    (s.selectedMovie = JSVal.null →
      (run s (searchMovies env s)).selectedMovie = JSVal.null ∧
      showsDetail (run s (searchMovies env s)) = false ∧
      showsResults (run s (searchMovies env s)) = some (decide (0 < items.length))) := by
  have hrun : run s (searchMovies env s) =
      { s with movies := JSVal.arr items, error := JSVal.str "", loading := false,
               isInitialState := false } := by
    simp [searchMovies, hterm, searchTry, hfetch, searchBranch, hresp, hsearch, strictEqStr,
      run, applyEffect]
  rw [hrun]
  refine ⟨rfl, rfl, rfl, rfl, ?_⟩
  intro hnull
  simp [showsDetail, showsResults, hnull, truthy]

theorem searchMovies_success_state_witness :
    trim typedMatrix.searchTerm ≠ "" ∧
    (run typedMatrix (searchMovies (answering sampleSearchOk) typedMatrix)).selectedMovie
      = JSVal.null ∧
    showsResults (run typedMatrix (searchMovies (answering sampleSearchOk) typedMatrix))
      = some true :=
  have h := searchMovies_success_state (answering sampleSearchOk) typedMatrix sampleSearchOk
    sampleRecords (by decide) rfl rfl rfl
  ⟨by decide, (h.2.2.2.2 rfl).1, (h.2.2.2.2 rfl).2.2⟩

/-! ## Lemmas on splitting and parsing -/

theorem splitOn_ne_nil (sep : Char) (cs : List Char) : splitOn sep cs ≠ [] := by
  cases cs with
  | nil => simp [splitOn]
  | cons c cs =>
    unfold splitOn
    split
    · simp
    · split <;> simp

theorem splitOn_single (sep : Char) (cs a : List Char) (h : splitOn sep cs = [a]) :
    cs = a ∧ sep ∉ a := by
  induction cs generalizing a with
  | nil =>
    simp [splitOn] at h
    subst h
    simp
  | cons c cs ih =>
    unfold splitOn at h
    split at h
    · simp at h
      exact absurd h.2 (splitOn_ne_nil sep cs)
    · rename_i hc
      split at h
      · rename_i hnil
        exact absurd hnil (splitOn_ne_nil sep cs)
      · rename_i p ps hp
        simp at h
        obtain ⟨h1, h2⟩ := h
        subst h2
        obtain ⟨e1, e2⟩ := ih p hp
        subst h1
        subst e1
        refine ⟨rfl, ?_⟩
        simp only [List.mem_cons, not_or]
        exact ⟨fun e => hc e.symm, e2⟩

theorem splitOn_pair (sep : Char) (cs a b : List Char) (h : splitOn sep cs = [a, b]) :
    cs = a ++ sep :: b ∧ sep ∉ a ∧ sep ∉ b := by
  induction cs generalizing a with
  | nil => simp [splitOn] at h
  | cons c cs ih =>
    unfold splitOn at h
    split at h
    · rename_i hc
      simp at h
      obtain ⟨h1, h2⟩ := h
      obtain ⟨e1, e2⟩ := splitOn_single sep cs b h2
      subst h1 e1 hc
      simp [e2]
    · rename_i hc
      split at h
      · rename_i hnil
        exact absurd hnil (splitOn_ne_nil sep cs)
      · rename_i p ps hp
        simp at h
        obtain ⟨h1, h2⟩ := h
        subst h2
        obtain ⟨e1, e2, e3⟩ := ih p hp
        subst h1
        subst e1
        refine ⟨rfl, ?_, e3⟩
        simp only [List.mem_cons, not_or]
        exact ⟨fun e => hc e.symm, e2⟩

theorem splitOn_headD (sep : Char) (cs : List Char) :
    (splitOn sep cs).headD [] = cs.takeWhile (fun c => c ≠ sep) := by
  induction cs with
  | nil => simp [splitOn]
  | cons c cs ih =>
    unfold splitOn
    by_cases hc : c = sep
    · simp [hc]
    · simp only [hc, if_false]
      split
      · rename_i hnil
        exact absurd hnil (splitOn_ne_nil sep cs)
      · rename_i p ps hp
        rw [hp] at ih
        simp at ih
        simp [hc, ih]

theorem takeWhile_ne_of_not_mem (sep : Char) (cs : List Char) (h : sep ∉ cs) :
    cs.takeWhile (fun c => c ≠ sep) = cs := by
  rw [List.takeWhile_eq_self_iff]
  intro x hx
  simp only [ne_eq, decide_not, Bool.not_eq_true', decide_eq_false_iff_not]
  intro e
  subst e
  exact h hx

theorem not_isWhiteSpace_of_isDigit (c : Char) (h : c.isDigit = true) :
    isWhiteSpace c = false := by
  simp only [Char.isDigit, Bool.and_eq_true, decide_eq_true_eq] at h
  obtain ⟨h1, h2⟩ := h
  have h3 : 48 ≤ c.toNat := h1
  have h4 : c.toNat ≤ 57 := h2
  simp only [isWhiteSpace, Bool.or_eq_false_iff, Bool.and_eq_false_iff, beq_eq_false_iff_ne,
    decide_eq_false_iff_not]
  omega

/-! ## Binary64 rounding -/

theorem pow2_eq (k : ℤ) : pow2 k = (2 : ℚ) ^ k := by
  unfold pow2
  by_cases hk : 0 ≤ k
  · simp only [hk, if_true]
    obtain ⟨n, rfl⟩ := Int.eq_ofNat_of_zero_le hk
    simp
  · simp only [hk, if_false]
    have hk2 : 0 ≤ -k := by omega
    obtain ⟨n, hn⟩ := Int.eq_ofNat_of_zero_le hk2
    have hk3 : k = -(n : ℤ) := by omega
    subst hk3
    simp

theorem two_zpow_pos (k : ℤ) : (0 : ℚ) < 2 ^ k := zpow_pos (by norm_num) k

theorem two_zpow_lt_imp (a b : ℤ) (h : (2 : ℚ) ^ a < 2 ^ b) : a < b := by
  by_contra hcon
  have hba : b ≤ a := by omega
  have := zpow_le_zpow_right₀ (by norm_num : (1 : ℚ) ≤ 2) hba
  linarith

theorem halvings_spec (fuel n : ℕ) (h1 : 1 ≤ n) (hf : n ≤ fuel) :
    2 ^ halvings fuel n ≤ n ∧ n < 2 ^ (halvings fuel n + 1) := by
  induction fuel generalizing n with
  | zero => omega
  | succ fuel ih =>
    unfold halvings
    by_cases hn : n < 2
    · simp only [hn, if_true]
      omega
    · simp only [hn, if_false]
      have h2 : 1 ≤ n / 2 := by omega
      have h3 : n / 2 ≤ fuel := by omega
      obtain ⟨ha, hb⟩ := ih (n / 2) h2 h3
      rw [pow_succ] at hb ⊢
      rw [pow_succ]
      constructor
      · omega
      · omega

/-- The binary exponent brackets a positive rational between two powers of
two. -/
theorem binaryExponent_spec (q : ℚ) (hq : 0 < q) :
    (2 : ℚ) ^ binaryExponent q ≤ q ∧ q < 2 ^ (binaryExponent q + 1) := by
  have hnum : 0 < q.num := Rat.num_pos.2 hq
  have hn1 : 1 ≤ q.num.natAbs := by omega
  have hd1 : 1 ≤ q.den := q.den_pos
  obtain ⟨ha, ha2⟩ := halvings_spec q.num.natAbs q.num.natAbs hn1 le_rfl
  obtain ⟨hb, hb2⟩ := halvings_spec q.den q.den hd1 le_rfl
  generalize hadef : halvings q.num.natAbs q.num.natAbs = a at ha ha2
  generalize hbdef : halvings q.den q.den = b at hb hb2
  have hqeq : q = (q.num.natAbs : ℚ) / (q.den : ℚ) := by
    have h2 : ((q.num.natAbs : ℕ) : ℚ) = (q.num : ℚ) := by
      rw [Nat.cast_natAbs, abs_of_pos hnum]
    rw [h2]
    exact (Rat.num_div_den q).symm
  have hdpos : (0 : ℚ) < (q.den : ℚ) := by exact_mod_cast q.den_pos
  have haQ : (2 : ℚ) ^ a ≤ (q.num.natAbs : ℚ) := by exact_mod_cast ha
  have ha2Q : (q.num.natAbs : ℚ) < 2 ^ (a + 1) := by exact_mod_cast ha2
  have hbQ : (2 : ℚ) ^ b ≤ (q.den : ℚ) := by exact_mod_cast hb
  have hb2Q : (q.den : ℚ) < 2 ^ (b + 1) := by exact_mod_cast hb2
  have hupper : q < (2 : ℚ) ^ ((a : ℤ) - (b : ℤ) + 1) := by
    have e1 : (2 : ℚ) ^ ((a : ℤ) - (b : ℤ) + 1) = 2 ^ (a + 1) / 2 ^ b := by
      have : ((a : ℤ) - (b : ℤ) + 1) = ((a + 1 : ℕ) : ℤ) - ((b : ℕ) : ℤ) := by push_cast; ring
      rw [this, zpow_sub₀ (by norm_num : (2 : ℚ) ≠ 0), zpow_natCast, zpow_natCast]
    rw [e1, hqeq, div_lt_div_iff₀ hdpos (by positivity)]
    calc (q.num.natAbs : ℚ) * 2 ^ b < 2 ^ (a + 1) * 2 ^ b := by
          apply mul_lt_mul_of_pos_right ha2Q (by positivity)
      _ ≤ 2 ^ (a + 1) * (q.den : ℚ) := by
          apply mul_le_mul_of_nonneg_left hbQ (by positivity)
  have hlower : (2 : ℚ) ^ ((a : ℤ) - (b : ℤ) - 1) ≤ q := by
    have e1 : (2 : ℚ) ^ ((a : ℤ) - (b : ℤ) - 1) = 2 ^ a / 2 ^ (b + 1) := by
      have : ((a : ℤ) - (b : ℤ) - 1) = ((a : ℕ) : ℤ) - ((b + 1 : ℕ) : ℤ) := by push_cast; ring
      rw [this, zpow_sub₀ (by norm_num : (2 : ℚ) ≠ 0), zpow_natCast, zpow_natCast]
    rw [e1, hqeq, div_le_div_iff₀ (by positivity) hdpos]
    calc (2 : ℚ) ^ a * (q.den : ℚ) ≤ 2 ^ a * 2 ^ (b + 1) := by
          apply mul_le_mul_of_nonneg_left hb2Q.le (by positivity)
      _ ≤ (q.num.natAbs : ℚ) * 2 ^ (b + 1) := by
          apply mul_le_mul_of_nonneg_right haQ (by positivity)
  unfold binaryExponent
  simp only [hadef, hbdef, pow2_eq]
  split
  · rename_i hc
    exact ⟨hc, hupper⟩
  · rename_i hc
    refine ⟨hlower, ?_⟩
    have : ((a : ℤ) - (b : ℤ) - 1 + 1) = (a : ℤ) - (b : ℤ) := by ring
    rw [this]
    exact lt_of_not_le hc

theorem roundHalfEven_intCast (z : ℤ) : roundHalfEven (z : ℚ) = z := by
  unfold roundHalfEven
  simp

theorem roundHalfEven_le (r : ℚ) (N : ℤ) (h : r ≤ (N : ℚ)) : roundHalfEven r ≤ N := by
  have hfl : ⌊r⌋ ≤ N := by
    have := Int.floor_le_floor h
    rwa [Int.floor_intCast] at this
  have hfr : (⌊r⌋ : ℚ) ≤ r := Int.floor_le r
  unfold roundHalfEven
  by_cases h1 : r - (⌊r⌋ : ℚ) < 1 / 2
  · simp only [h1, if_true]
    exact hfl
  · have hlt : ⌊r⌋ < N := by
      have h2 : (⌊r⌋ : ℚ) < (N : ℚ) := by linarith
      exact_mod_cast h2
    simp only [h1, if_false]
    split
    · omega
    · split
      · exact hfl
      · omega

theorem roundHalfEven_ge (r : ℚ) (N : ℤ) (h : (N : ℚ) ≤ r) : N ≤ roundHalfEven r := by
  have hfl : N ≤ ⌊r⌋ := Int.le_floor.2 h
  unfold roundHalfEven
  split
  · exact hfl
  · split
    · omega
    · split
      · exact hfl
      · omega

theorem roundMagnitude_eq (q : ℚ) :
    roundMagnitude q =
      if (roundHalfEven (q / 2 ^ (max (binaryExponent q) (-1022) - 52)) : ℚ)
          * 2 ^ (max (binaryExponent q) (-1022) - 52) < 2 ^ (1024 : ℤ)
      then some ((roundHalfEven (q / 2 ^ (max (binaryExponent q) (-1022) - 52)) : ℚ)
          * 2 ^ (max (binaryExponent q) (-1022) - 52))
      else none := by
  unfold roundMagnitude
  simp only [pow2_eq]

theorem two_zpow_split (k j : ℤ) (h : k ≤ j) :
    (2 : ℚ) ^ j = (((2 : ℤ) ^ (j - k).toNat : ℤ) : ℚ) * 2 ^ k := by
  have ht : ((j - k).toNat : ℤ) = j - k := Int.toNat_of_nonneg (by omega)
  have hj : j = ((j - k).toNat : ℤ) + k := by omega
  conv_lhs => rw [hj]
  rw [zpow_add₀ (by norm_num : (2 : ℚ) ≠ 0), zpow_natCast]
  push_cast
  ring

/-- The quantum used to round `q` divides every binary64 value that is at
least `q`. -/
theorem quantum_le (q : ℚ) (hq : 0 < q) (N j : ℤ) (hN : N < 2 ^ 53) (hj : -1074 ≤ j)
    (hle : q ≤ (N : ℚ) * 2 ^ j) :
    max (binaryExponent q) (-1022) - 52 ≤ j := by
  obtain ⟨h1, -⟩ := binaryExponent_spec q hq
  have hNQ : (N : ℚ) < 2 ^ (53 : ℤ) := by
    have e : (2 : ℚ) ^ (53 : ℤ) = (((2 : ℤ) ^ 53 : ℤ) : ℚ) := by norm_num
    rw [e]
    exact_mod_cast hN
  have h2 : (2 : ℚ) ^ binaryExponent q < 2 ^ (53 + j) := by
    rw [zpow_add₀ (by norm_num : (2 : ℚ) ≠ 0)]
    calc (2 : ℚ) ^ binaryExponent q ≤ q := h1
      _ ≤ (N : ℚ) * 2 ^ j := hle
      _ < 2 ^ (53 : ℤ) * 2 ^ j := mul_lt_mul_of_pos_right hNQ (two_zpow_pos j)
  have h3 := two_zpow_lt_imp _ _ h2
  omega

/-- Rounding does not pass a binary64 value above the argument. -/
theorem roundMagnitude_le (q : ℚ) (hq : 0 < q) (N j : ℤ) (hN : N < 2 ^ 53) (hj : -1074 ≤ j)
    (hle : q ≤ (N : ℚ) * 2 ^ j) (hfin : (N : ℚ) * 2 ^ j < 2 ^ (1024 : ℤ)) :
    ∃ w, roundMagnitude q = some w ∧ 0 ≤ w ∧ w ≤ (N : ℚ) * 2 ^ j ∧
      (q = (N : ℚ) * 2 ^ j → w = q) := by
  have hk := quantum_le q hq N j hN hj hle
  rw [roundMagnitude_eq]
  generalize max (binaryExponent q) (-1022) - 52 = k at hk
  have hkpos : (0 : ℚ) < 2 ^ k := two_zpow_pos k
  have hB : (N : ℚ) * 2 ^ j = ((N * (2 : ℤ) ^ (j - k).toNat : ℤ) : ℚ) * 2 ^ k := by
    rw [two_zpow_split k j hk]
    push_cast
    ring
  have hx : q / 2 ^ k ≤ ((N * (2 : ℤ) ^ (j - k).toNat : ℤ) : ℚ) := by
    rw [div_le_iff₀ hkpos, ← hB]
    exact hle
  have hM := roundHalfEven_le _ _ hx
  have hx0 : ((0 : ℤ) : ℚ) ≤ q / 2 ^ k := by
    simp only [Int.cast_zero]
    positivity
  have hM0 := roundHalfEven_ge _ _ hx0
  have hw0 : (0 : ℚ) ≤ (roundHalfEven (q / 2 ^ k) : ℚ) * 2 ^ k := by
    have : (0 : ℚ) ≤ (roundHalfEven (q / 2 ^ k) : ℚ) := by exact_mod_cast hM0
    positivity
  have hwle : (roundHalfEven (q / 2 ^ k) : ℚ) * 2 ^ k ≤ (N : ℚ) * 2 ^ j := by
    rw [hB]
    have : (roundHalfEven (q / 2 ^ k) : ℚ) ≤ ((N * (2 : ℤ) ^ (j - k).toNat : ℤ) : ℚ) := by
      exact_mod_cast hM
    exact mul_le_mul_of_nonneg_right this hkpos.le
  have hlt : (roundHalfEven (q / 2 ^ k) : ℚ) * 2 ^ k < 2 ^ (1024 : ℤ) := lt_of_le_of_lt hwle hfin
  refine ⟨_, if_pos hlt, hw0, hwle, ?_⟩
  intro heq
  have hxeq : q / 2 ^ k = ((N * (2 : ℤ) ^ (j - k).toNat : ℤ) : ℚ) := by
    rw [div_eq_iff hkpos.ne', ← hB]
    exact heq
  rw [hxeq, roundHalfEven_intCast, ← hB, heq]

/-- Rounding yields binary64 values. -/
theorem roundMagnitude_isBinary64 (q w : ℚ) (hq : 0 < q) (h : roundMagnitude q = some w) :
    0 ≤ w ∧ IsBinary64 w := by
  rw [roundMagnitude_eq] at h
  obtain ⟨-, hup⟩ := binaryExponent_spec q hq
  have hkge : -1074 ≤ max (binaryExponent q) (-1022) - 52 := by
    have := le_max_right (binaryExponent q) (-1022)
    omega
  have hup2 : q < 2 ^ (53 : ℤ) * 2 ^ (max (binaryExponent q) (-1022) - 52) := by
    rw [← zpow_add₀ (by norm_num : (2 : ℚ) ≠ 0)]
    refine lt_of_lt_of_le hup (zpow_le_zpow_right₀ (by norm_num) ?_)
    have := le_max_left (binaryExponent q) (-1022)
    omega
  generalize max (binaryExponent q) (-1022) - 52 = k at h hkge hup2
  have hkpos : (0 : ℚ) < 2 ^ k := two_zpow_pos k
  have hx0 : ((0 : ℤ) : ℚ) ≤ q / 2 ^ k := by
    simp only [Int.cast_zero]
    positivity
  have hM0 := roundHalfEven_ge _ _ hx0
  have hx1 : q / 2 ^ k ≤ (((2 : ℤ) ^ 53 : ℤ) : ℚ) := by
    rw [div_le_iff₀ hkpos]
    have e : (2 : ℚ) ^ (53 : ℤ) = (((2 : ℤ) ^ 53 : ℤ) : ℚ) := by norm_num
    rw [← e]
    exact hup2.le
  have hM1 := roundHalfEven_le _ _ hx1
  generalize roundHalfEven (q / 2 ^ k) = M at h hM0 hM1
  split at h
  · rename_i hlt
    simp only [Option.some.injEq] at h
    subst h
    have hw0 : (0 : ℚ) ≤ (M : ℚ) * 2 ^ k := by
      have : (0 : ℚ) ≤ (M : ℚ) := by exact_mod_cast hM0
      positivity
    refine ⟨hw0, ?_⟩
    have habs : |(M : ℚ) * 2 ^ k| < 2 ^ (1024 : ℤ) := by
      rw [abs_of_nonneg hw0]
      exact hlt
    by_cases hM2 : M < 2 ^ 53
    · exact ⟨M, k, by rw [abs_of_nonneg hM0]; exact hM2, hkge, rfl, habs⟩
    · have hMeq : M = 2 ^ 53 := by omega
      refine ⟨2 ^ 52, k + 1, by norm_num, by omega, ?_, habs⟩
      rw [hMeq, zpow_add_one₀ (by norm_num : (2 : ℚ) ≠ 0)]
      push_cast
      ring
  · simp at h

theorem toBinary64_pos (q : ℚ) (hq : 0 < q) :
    toBinary64 q = match roundMagnitude q with
      | some w => JSNum.fin w
      | none => JSNum.posInf := by
  unfold toBinary64
  simp [hq.ne', hq]

theorem toBinary64_ne_nan (q : ℚ) : toBinary64 q ≠ JSNum.nan := by
  unfold toBinary64
  split
  · simp
  · split
    · split <;> simp
    · split <;> simp

theorem toBinary64_neg (q : ℚ) : toBinary64 (-q) = (toBinary64 q).neg := by
  unfold toBinary64
  rcases lt_trichotomy q 0 with h | h | h
  · have h1 : q ≠ 0 := h.ne
    have h2 : ¬ (0 < q) := not_lt.2 h.le
    have h3 : -q ≠ 0 := by simpa using h1
    have h4 : 0 < -q := by linarith
    simp only [h1, h2, h3, h4, if_true, if_false]
    cases roundMagnitude (-q) <;> simp [JSNum.neg]
  · subst h
    simp [JSNum.neg]
  · have h1 : q ≠ 0 := h.ne'
    have h3 : -q ≠ 0 := by simpa using h1
    have h4 : ¬ (0 < -q) := by
      intro hc
      linarith
    simp only [h1, h, h3, h4, if_true, if_false, neg_neg]
    cases roundMagnitude q <;> simp [JSNum.neg]

theorem isBinary64_neg (v : ℚ) (h : IsBinary64 v) : IsBinary64 (-v) := by
  obtain ⟨m, k, hm, hk, hv, hb⟩ := h
  refine ⟨-m, k, by rwa [abs_neg], hk, ?_, by rwa [abs_neg]⟩
  rw [hv]
  push_cast
  ring

/-- The values that `toBinary64` yields are binary64 values. -/
theorem toBinary64_isBinary64 (q v : ℚ) (h : toBinary64 q = JSNum.fin v) : IsBinary64 v := by
  unfold toBinary64 at h
  split at h
  · simp only [JSNum.fin.injEq] at h
    subst h
    exact ⟨0, 0, by norm_num, by norm_num, by simp, by simp; positivity⟩
  · rename_i h0
    split at h
    · rename_i hpos
      split at h
      · rename_i w hw
        simp only [JSNum.fin.injEq] at h
        subst h
        exact (roundMagnitude_isBinary64 q _ hpos hw).2
      · simp at h
    · rename_i hneg
      have hpos : 0 < -q := by
        rcases lt_trichotomy q 0 with h1 | h1 | h1
        · linarith
        · exact absurd h1 h0
        · exact absurd h1 hneg
      split at h
      · rename_i w hw
        simp only [JSNum.fin.injEq] at h
        subst h
        exact isBinary64_neg _ (roundMagnitude_isBinary64 (-q) _ hpos hw).2
      · simp at h

/-- Rounding leaves a positive binary64 value as it is. -/
theorem roundMagnitude_of_isBinary64 (v : ℚ) (hv : 0 < v) (h : IsBinary64 v) :
    roundMagnitude v = some v := by
  obtain ⟨m, k, hm, hk, hveq, hb⟩ := h
  have hm2 : m < 2 ^ 53 := lt_of_le_of_lt (le_abs_self m) hm
  have hfin : (m : ℚ) * 2 ^ k < 2 ^ (1024 : ℤ) := by
    rw [← hveq]
    exact lt_of_le_of_lt (le_abs_self v) hb
  obtain ⟨w, hw, -, -, hex⟩ := roundMagnitude_le v hv m k hm2 hk hveq.le hfin
  rw [hw, hex hveq]

/-- The function `toBinary64` leaves a binary64 value as it is. -/
theorem toBinary64_of_isBinary64 (v : ℚ) (h : IsBinary64 v) : toBinary64 v = JSNum.fin v := by
  rcases lt_trichotomy v 0 with h1 | h1 | h1
  · have hpos : 0 < -v := by linarith
    have h2 := toBinary64_pos (-v) hpos
    rw [roundMagnitude_of_isBinary64 (-v) hpos (isBinary64_neg v h)] at h2
    have h3 := toBinary64_neg (-v)
    rw [neg_neg] at h3
    rw [h3, h2]
    simp [JSNum.neg]
  · subst h1
    simp [toBinary64]
  · rw [toBinary64_pos v h1, roundMagnitude_of_isBinary64 v h1 h]

/-- A number between zero and a binary64 value is rounded to a number
between them. -/
theorem toBinary64_between (q : ℚ) (N j : ℤ) (hN : N < 2 ^ 53) (hj : -1074 ≤ j)
    (hq : 0 ≤ q) (hle : q ≤ (N : ℚ) * 2 ^ j) (hfin : (N : ℚ) * 2 ^ j < 2 ^ (1024 : ℤ)) :
    ∃ w, toBinary64 q = JSNum.fin w ∧ 0 ≤ w ∧ w ≤ (N : ℚ) * 2 ^ j := by
  rcases hq.lt_or_eq with h | h
  · obtain ⟨w, hw, hw0, hw1, -⟩ := roundMagnitude_le q h N j hN hj hle hfin
    refine ⟨w, ?_, hw0, hw1⟩
    rw [toBinary64_pos q h, hw]
  · subst h
    exact ⟨0, by simp [toBinary64], le_rfl, hle⟩

theorem two_zpow_neg_1022_lt : (2 : ℚ) ^ (-1022 : ℤ) < 1 / 2 := by
  have h := zpow_le_zpow_right₀ (by norm_num : (1 : ℚ) ≤ 2) (by norm_num : (-1022 : ℤ) ≤ -2)
  have e : (2 : ℚ) ^ (-2 : ℤ) = 1 / 4 := by norm_num
  rw [e] at h
  linarith

/-- Halving a positive binary64 value is exact, unless the value is so small
that the half is below the least normal magnitude, and then so is the rounded
half. -/
theorem roundMagnitude_half (v : ℚ) (hv : 0 < v) (h : IsBinary64 v) :
    ∃ w, roundMagnitude (v / 2) = some w ∧
      (w = v / 2 ∨ (0 ≤ w ∧ w ≤ 2 ^ (-1022 : ℤ) ∧ v / 2 ≤ 2 ^ (-1022 : ℤ))) := by
  obtain ⟨m, k, hm, hk, hveq, hb⟩ := h
  have hm2 : m < 2 ^ 53 := lt_of_le_of_lt (le_abs_self m) hm
  have hv2 : 0 < v / 2 := by positivity
  have hvlt : v < 2 ^ (1024 : ℤ) := lt_of_le_of_lt (le_abs_self v) hb
  by_cases hk2 : -1074 < k
  · have heq : v / 2 = (m : ℚ) * 2 ^ (k - 1) := by
      rw [hveq, zpow_sub_one₀ (by norm_num : (2 : ℚ) ≠ 0)]
      ring
    have hfin : (m : ℚ) * 2 ^ (k - 1) < 2 ^ (1024 : ℤ) := by
      rw [← heq]
      linarith
    obtain ⟨w, hw, -, -, hex⟩ :=
      roundMagnitude_le (v / 2) hv2 m (k - 1) hm2 (by omega) heq.le hfin
    exact ⟨w, hw, Or.inl (hex heq)⟩
  · have hkeq : k = -1074 := by omega
    subst hkeq
    have hmQ : (m : ℚ) < 2 ^ (53 : ℤ) := by
      have e : (2 : ℚ) ^ (53 : ℤ) = (((2 : ℤ) ^ 53 : ℤ) : ℚ) := by norm_num
      rw [e]
      exact_mod_cast hm2
    have hsmall : v / 2 ≤ ((1 : ℤ) : ℚ) * 2 ^ (-1022 : ℤ) := by
      have e : (2 : ℚ) ^ (-1022 : ℤ) = 2 ^ (53 : ℤ) * 2 ^ (-1074 : ℤ) / 2 := by
        rw [← zpow_add₀ (by norm_num : (2 : ℚ) ≠ 0)]
        have : (2 : ℚ) ^ ((53 : ℤ) + -1074) = 2 ^ (-1022 : ℤ) * 2 := by
          rw [← zpow_add_one₀ (by norm_num : (2 : ℚ) ≠ 0)]
          norm_num
        rw [this]
        ring
      rw [Int.cast_one, one_mul, e, hveq]
      have := mul_le_mul_of_nonneg_right hmQ.le (two_zpow_pos (-1074)).le
      linarith
    have hfin : ((1 : ℤ) : ℚ) * 2 ^ (-1022 : ℤ) < 2 ^ (1024 : ℤ) := by
      rw [Int.cast_one, one_mul]
      exact zpow_lt_zpow_right₀ (by norm_num) (by norm_num)
    obtain ⟨w, hw, hw0, hw1, -⟩ :=
      roundMagnitude_le (v / 2) hv2 1 (-1022) (by norm_num) (by norm_num) hsmall hfin
    rw [Int.cast_one, one_mul] at hw1 hsmall
    exact ⟨w, hw, Or.inr ⟨hw0, hw1, hsmall⟩⟩

/-- The nearest integer to the binary64 half of a binary64 value is the
nearest integer to its exact half. -/
theorem mathRound_half (v : ℚ) (h : IsBinary64 v) :
    mathRound (toBinary64 (v / 2)) = JSNum.fin ((⌊v / 2 + 1 / 2⌋ : ℤ) : ℚ) := by
  have hsm := two_zpow_neg_1022_lt
  rcases lt_trichotomy v 0 with h1 | h1 | h1
  · have hpos : 0 < -v := by linarith
    obtain ⟨w, hw, hcase⟩ := roundMagnitude_half (-v) hpos (isBinary64_neg v h)
    generalize (2 : ℚ) ^ (-1022 : ℤ) = tiny at hsm hcase
    have e1 : v / 2 = -(-v / 2) := by ring
    have h2 : toBinary64 (v / 2) = JSNum.fin (-w) := by
      rw [e1, toBinary64_neg, toBinary64_pos (-v / 2) (by positivity), hw]
      rfl
    rw [h2]
    simp only [mathRound, JSNum.fin.injEq, Int.cast_inj]
    rcases hcase with hc | ⟨hc0, hc1, hc2⟩
    · rw [hc]
      congr 1
      ring
    · have e2 : ⌊-w + 1 / 2⌋ = 0 := by
        rw [Int.floor_eq_iff]
        constructor
        · simp only [Int.cast_zero]
          linarith
        · simp only [Int.cast_zero]
          linarith
      have e3 : ⌊v / 2 + 1 / 2⌋ = 0 := by
        rw [Int.floor_eq_iff]
        constructor
        · simp only [Int.cast_zero]
          linarith
        · simp only [Int.cast_zero]
          linarith
      rw [e2, e3]
  · subst h1
    simp [toBinary64, mathRound]
  · obtain ⟨w, hw, hcase⟩ := roundMagnitude_half v h1 h
    generalize (2 : ℚ) ^ (-1022 : ℤ) = tiny at hsm hcase
    have h2 : toBinary64 (v / 2) = JSNum.fin w := by
      rw [toBinary64_pos (v / 2) (by positivity), hw]
    rw [h2]
    simp only [mathRound, JSNum.fin.injEq, Int.cast_inj]
    rcases hcase with hc | ⟨hc0, hc1, hc2⟩
    · rw [hc]
    · have e2 : ⌊w + 1 / 2⌋ = 0 := by
        rw [Int.floor_eq_iff]
        constructor
        · simp only [Int.cast_zero]
          linarith
        · simp only [Int.cast_zero]
          linarith
      have e3 : ⌊v / 2 + 1 / 2⌋ = 0 := by
        rw [Int.floor_eq_iff]
        constructor
        · simp only [Int.cast_zero]
          linarith
        · simp only [Int.cast_zero]
          linarith
      rw [e2, e3]

/-! ## The parser on numbers written in full -/

theorem not_infinity_prefix_of_digit (c : Char) (r : List Char) (h : c.isDigit = true) :
    "Infinity".data.isPrefixOf (c :: r) = false := by
  have hc : ¬ ('I' = c) := by
    intro e
    subst e
    exact absurd h (by decide)
  simp [List.isPrefixOf, hc]

theorem digitsValue_foldl (ds : List Char) (acc : ℕ) :
    ds.foldl (fun a c => 10 * a + (c.toNat - 48)) acc
      = acc * 10 ^ ds.length + numeralValue ds := by
  induction ds generalizing acc with
  | nil => simp [numeralValue]
  | cons c cs ih =>
    simp only [List.foldl_cons, List.length_cons, numeralValue]
    rw [ih, pow_succ]
    ring

/-- The value that the parser accumulates over a digit string is the number
that the string denotes. -/
theorem digitsValue_eq_numeralValue (ds : List Char) : digitsValue ds = numeralValue ds := by
  unfold digitsValue
  rw [digitsValue_foldl]
  simp

theorem takeWhile_digits_append (ds tail : List Char)
    (hall : ∀ c ∈ ds, c.isDigit = true) (htail : ∀ c ∈ tail.head?, c.isDigit = false) :
    List.takeWhile Char.isDigit (ds ++ tail) = ds ∧
    List.dropWhile Char.isDigit (ds ++ tail) = tail := by
  rw [List.takeWhile_append_of_pos hall, List.dropWhile_append_of_pos hall]
  cases tail with
  | nil => simp
  | cons c t =>
    have hc : ¬ (c.isDigit = true) := by
      have := htail c (by simp)
      simp [this]
    simp [List.takeWhile_cons_of_neg hc, List.dropWhile_cons_of_neg hc]

/-- Value read by `parseUnsigned` from digits followed by a tail that starts
with neither a digit nor a point. -/
theorem parseUnsigned_digits (ds tail : List Char) (hne : ds ≠ [])
    (hd : ds.all Char.isDigit = true)
    (htail : ∀ c ∈ tail.head?, c.isDigit = false ∧ c ≠ '.') :
    parseUnsigned (ds ++ tail)
      = toBinary64 ((numeralValue ds : ℚ) * 10 ^ scanExponent tail) := by
  have hall : ∀ c ∈ ds, c.isDigit = true := by simpa using hd
  obtain ⟨c, r, rfl⟩ := List.exists_cons_of_ne_nil hne
  have hc : c.isDigit = true := hall c (List.mem_cons_self _ _)
  obtain ⟨htake, hdrop⟩ := takeWhile_digits_append (c :: r) tail hall
    (fun x hx => (htail x hx).1)
  unfold parseUnsigned
  have hpre : "Infinity".data.isPrefixOf (c :: r ++ tail) = false :=
    not_infinity_prefix_of_digit c (r ++ tail) hc
  rw [hpre]
  simp only [htake, hdrop]
  cases tail with
  | nil =>
    simp only [digitsValue_eq_numeralValue]
    simp [numeralValue]
  | cons x t =>
    have hx : x ≠ '.' := (htail x (by simp)).2
    simp only [digitsValue_eq_numeralValue, hx, if_false]
    simp [numeralValue]

/-- Value read by `parseUnsigned` from digits, a point, digits and a tail
that does not start with a digit. -/
theorem parseUnsigned_digits_point (ds fs tail : List Char) (hne : ds ≠ [])
    (hd : ds.all Char.isDigit = true) (hf : fs.all Char.isDigit = true)
    (htail : ∀ c ∈ tail.head?, c.isDigit = false) :
    parseUnsigned (ds ++ '.' :: (fs ++ tail))
      = toBinary64 (((numeralValue ds : ℚ) + (numeralValue fs : ℚ) / 10 ^ fs.length)
          * 10 ^ scanExponent tail) := by
  have hall : ∀ c ∈ ds, c.isDigit = true := by simpa using hd
  have hfall : ∀ c ∈ fs, c.isDigit = true := by simpa using hf
  obtain ⟨c, r, rfl⟩ := List.exists_cons_of_ne_nil hne
  have hc : c.isDigit = true := hall c (List.mem_cons_self _ _)
  obtain ⟨htake, hdrop⟩ := takeWhile_digits_append (c :: r) ('.' :: (fs ++ tail)) hall
    (by simp)
  obtain ⟨hftake, hfdrop⟩ := takeWhile_digits_append fs tail hfall htail
  unfold parseUnsigned
  have hpre : "Infinity".data.isPrefixOf (c :: r ++ '.' :: (fs ++ tail)) = false :=
    not_infinity_prefix_of_digit c (r ++ '.' :: (fs ++ tail)) hc
  rw [hpre]
  simp only [htake, hdrop, hftake, hfdrop]
  simp [digitsValue_eq_numeralValue]

/-- The exponent read by `scanExponent` after the letter `e` or `E` from a
whole number written in full. -/
theorem scanExponent_signedInteger (c : Char) (ex : List Char) (e : ℤ)
    (hc : c = 'e' ∨ c = 'E') (h : signedInteger ex = some e) :
    scanExponent (c :: ex) = e := by
  cases ex with
  | nil => simp [signedInteger] at h
  | cons d t =>
    unfold signedInteger at h
    unfold scanExponent
    simp only [hc, if_true]
    by_cases hd : d = '-'
    · simp only [hd, if_true] at h ⊢
      split at h
      · rename_i hcond
        obtain ⟨hne, hall⟩ := hcond
        have hall2 : ∀ x ∈ t, x.isDigit = true := by simpa using hall
        simp only [Option.some.injEq] at h
        rw [List.takeWhile_eq_self_iff.2 hall2, digitsValue_eq_numeralValue]
        simp [hne, h]
      · simp at h
    · simp only [hd, if_false] at h ⊢
      by_cases hp : d = '+'
      · simp only [hp, if_true] at h ⊢
        split at h
        · rename_i hcond
          obtain ⟨-, hall⟩ := hcond
          have hall2 : ∀ x ∈ t, x.isDigit = true := by simpa using hall
          simp only [Option.some.injEq] at h
          rw [List.takeWhile_eq_self_iff.2 hall2, digitsValue_eq_numeralValue]
          exact h
        · simp at h
      · simp only [hp, if_false] at h ⊢
        split at h
        · rename_i hall
          have hall2 : ∀ x ∈ d :: t, x.isDigit = true := by simpa using hall
          simp only [Option.some.injEq] at h
          rw [List.takeWhile_eq_self_iff.2 hall2, digitsValue_eq_numeralValue]
          exact h
        · simp at h

/-- The parser reads an unsigned decimal number written in full, followed by
a tail that starts with neither a digit nor a point, as the number it denotes
scaled by the exponent of the tail; such a text starts with a digit. -/
theorem parseUnsigned_unsignedDecimal (a tail : List Char) (m : ℚ)
    (h : unsignedDecimal a = some m)
    (htail : ∀ c ∈ tail.head?, c.isDigit = false ∧ c ≠ '.') :
    parseUnsigned (a ++ tail) = toBinary64 (m * 10 ^ scanExponent tail) ∧
    ∃ c r, a = c :: r ∧ c.isDigit = true := by
  unfold unsignedDecimal at h
  split at h
  · rename_i ds hs
    obtain ⟨e1, -⟩ := splitOn_single '.' a ds hs
    subst e1
    split at h
    · rename_i hcond
      obtain ⟨hne, hd⟩ := hcond
      simp only [Option.some.injEq] at h
      subst h
      refine ⟨parseUnsigned_digits a tail hne hd htail, ?_⟩
      obtain ⟨c, r, rfl⟩ := List.exists_cons_of_ne_nil hne
      have hall : ∀ x ∈ c :: r, x.isDigit = true := by simpa using hd
      exact ⟨c, r, rfl, hall c (List.mem_cons_self _ _)⟩
    · simp at h
  · rename_i ds fs hs
    obtain ⟨e1, -, -⟩ := splitOn_pair '.' a ds fs hs
    subst e1
    split at h
    · rename_i hcond
      obtain ⟨hne, hd, -, hf⟩ := hcond
      simp only [Option.some.injEq] at h
      subst h
      refine ⟨?_, ?_⟩
      · have := parseUnsigned_digits_point ds fs tail hne hd hf (fun x hx => (htail x hx).1)
        simpa using this
      · obtain ⟨c, r, rfl⟩ := List.exists_cons_of_ne_nil hne
        have hall : ∀ x ∈ c :: r, x.isDigit = true := by simpa using hd
        exact ⟨c, r ++ '.' :: fs, rfl, hall c (List.mem_cons_self _ _)⟩
    · simp at h
  · simp at h

/-- The parser reads an unsigned number written in full, in decimal or in
scientific notation, as the binary64 value nearest to the number it denotes;
such a text starts with a digit. -/
theorem parseUnsigned_unsignedNumber (a : List Char) (q : ℚ)
    (h : unsignedNumber a = some q) :
    parseUnsigned a = toBinary64 q ∧ ∃ c r, a = c :: r ∧ c.isDigit = true := by
  unfold unsignedNumber at h
  split at h
  · obtain ⟨hp, hdig⟩ := parseUnsigned_unsignedDecimal a [] q h (by simp)
    refine ⟨?_, hdig⟩
    simpa [scanExponent] using hp
  · rename_i c ex hdrop
    have hsplit := List.takeWhile_append_dropWhile (fun c => !(c == 'e' || c == 'E')) a
    rw [hdrop] at hsplit
    have hc : c = 'e' ∨ c = 'E' := by
      have := List.head_dropWhile_not (fun c => !(c == 'e' || c == 'E')) a
        (by rw [hdrop]; simp)
      simp only [hdrop, List.head_cons] at this
      by_cases he : c = 'e'
      · exact Or.inl he
      · right
        simpa [he] using this
    split at h
    · rename_i m e hm he
      simp only [Option.some.injEq] at h
      subst h
      have htail : ∀ x ∈ (c :: ex).head?, x.isDigit = false ∧ x ≠ '.' := by
        intro x hx
        simp only [List.head?_cons, Option.mem_def, Option.some.injEq] at hx
        subst hx
        rcases hc with hc | hc <;> subst hc <;> decide
      obtain ⟨hp, c2, r2, hc2, hd2⟩ := parseUnsigned_unsignedDecimal _ (c :: ex) m hm htail
      rw [hsplit, scanExponent_signedInteger c ex e hc he] at hp
      refine ⟨hp, c2, r2 ++ c :: ex, ?_, hd2⟩
      rw [← hsplit, hc2]
      rfl
    · simp at h

theorem trimStart_of_digit (c : Char) (r : List Char) (h : c.isDigit = true) :
    trimStart (c :: r) = c :: r := by
  have hw := not_isWhiteSpace_of_isDigit c h
  simp [trimStart, hw]

/-- Value read by `parseFloat` from an unsigned text that starts with a
digit. -/
theorem parseFloat_of_digit (c : Char) (r : List Char) (h : c.isDigit = true) :
    parseFloat (c :: r) = parseUnsigned (c :: r) := by
  have h1 : c ≠ '-' := by
    intro e
    subst e
    exact absurd h (by decide)
  have h2 : c ≠ '+' := by
    intro e
    subst e
    exact absurd h (by decide)
  simp [parseFloat, trimStart_of_digit c r h, h1, h2]

theorem parseFloat_minus (r : List Char) :
    parseFloat ('-' :: r) = (parseUnsigned r).neg := by
  have hw : isWhiteSpace '-' = false := by decide
  simp [parseFloat, trimStart, hw]

/-- The parser reads a number written in full as the binary64 value nearest
to the number it denotes. -/
theorem parseFloat_numberDenoted (a : List Char) (v : ℚ) (h : numberDenoted a = some v) :
    parseFloat a = toBinary64 v := by
  cases a with
  | nil => simp [numberDenoted] at h
  | cons c r =>
    unfold numberDenoted at h
    by_cases hc : c = '-'
    · subst hc
      simp only [if_true, Option.map_eq_some'] at h
      obtain ⟨q, hq, rfl⟩ := h
      rw [parseFloat_minus, (parseUnsigned_unsignedNumber r q hq).1, toBinary64_neg]
    · simp only [hc, if_false] at h
      obtain ⟨hp, c2, r2, e, hd⟩ := parseUnsigned_unsignedNumber (c :: r) v h
      simp only [List.cons.injEq] at e
      obtain ⟨e1, e2⟩ := e
      subst e1 e2
      rw [parseFloat_of_digit c r hd, hp]

/-! ## What the parser yields -/

theorem neg_eq_nan_iff (x : JSNum) : x.neg = JSNum.nan ↔ x = JSNum.nan := by
  cases x <;> simp [JSNum.neg]

theorem isNaN_eq_true_iff (x : JSNum) : isNaN x = true ↔ x = JSNum.nan := by
  cases x <;> simp [isNaN]

theorem isNaN_toBinary64 (q : ℚ) : isNaN (toBinary64 q) = false := by
  cases h : isNaN (toBinary64 q)
  · rfl
  · exact absurd ((isNaN_eq_true_iff _).1 h) (toBinary64_ne_nan q)

theorem isNaN_divBy (x : JSNum) (d : ℚ) : isNaN (x.divBy d) = isNaN x := by
  cases x with
  | fin q =>
    show isNaN (toBinary64 (q / d)) = isNaN (JSNum.fin q)
    rw [isNaN_toBinary64]
    rfl
  | nan => rfl
  | posInf => rfl
  | negInf => rfl

theorem parseUnsigned_isBinary64 (cs : List Char) (v : ℚ)
    (h : parseUnsigned cs = JSNum.fin v) : IsBinary64 v := by
  unfold parseUnsigned at h
  split at h
  · simp at h
  · simp only at h
    split at h
    · simp at h
    · exact toBinary64_isBinary64 _ v h

theorem parseFloat_isBinary64 (cs : List Char) (v : ℚ)
    (h : parseFloat cs = JSNum.fin v) : IsBinary64 v := by
  unfold parseFloat at h
  split at h
  · simp at h
  · split at h
    · rename_i c r _ _
      cases hp : parseUnsigned r with
      | fin q =>
        rw [hp] at h
        simp only [JSNum.neg, JSNum.fin.injEq] at h
        subst h
        exact isBinary64_neg q (parseUnsigned_isBinary64 r q hp)
      | nan => rw [hp] at h; simp [JSNum.neg] at h
      | posInf => rw [hp] at h; simp [JSNum.neg] at h
      | negInf => rw [hp] at h; simp [JSNum.neg] at h
    · split at h
      · exact parseUnsigned_isBinary64 _ v h
      · exact parseUnsigned_isBinary64 _ v h

theorem divBy_isBinary64 (x : JSNum) (d v : ℚ) (hx : ∀ q, x = JSNum.fin q → IsBinary64 q)
    (h : x.divBy d = JSNum.fin v) : IsBinary64 v := by
  cases x with
  | fin q => exact toBinary64_isBinary64 _ v (by simpa [JSNum.divBy] using h)
  | nan => simp [JSNum.divBy] at h
  | posInf => simp [JSNum.divBy] at h
  | negInf => simp [JSNum.divBy] at h

/-- A finite `numRating` is a binary64 value. -/
theorem numRating_isBinary64 (text : String) (v : ℚ)
    (h : numRating text = JSNum.fin v) : IsBinary64 v := by
  unfold numRating at h
  split at h
  · simp only at h
    split at h
    · exact divBy_isBinary64 _ 10 v (fun q hq => parseFloat_isBinary64 _ q hq) h
    · exact parseFloat_isBinary64 _ v h
  · exact parseFloat_isBinary64 _ v h

/-- The parser finds no unsigned number exactly when the text does not start
with one. -/
theorem parseUnsigned_eq_nan_iff (cs : List Char) :
    parseUnsigned cs = JSNum.nan ↔ startsUnsigned cs = false := by
  unfold parseUnsigned startsUnsigned
  by_cases hinf : "Infinity".data.isPrefixOf cs = true
  · simp [hinf]
  · simp only [hinf, Bool.false_eq_true, if_false, Bool.false_or]
    cases cs with
    | nil => simp
    | cons c r =>
      by_cases hc : c.isDigit = true
      · simp [hc, toBinary64_ne_nan]
      · have hc2 : c.isDigit = false := by simpa using hc
        simp only [List.takeWhile_cons_of_neg hc, List.dropWhile_cons_of_neg hc, hc2,
          Bool.false_or]
        by_cases hp : c = '.'
        · subst hp
          cases r with
          | nil => simp
          | cons d t =>
            by_cases hd : d.isDigit = true
            · simp [hd, toBinary64_ne_nan]
            · have hd2 : d.isDigit = false := by simpa using hd
              simp [hd2]
        · simp [hp]

/-- The function `parseFloat` gives `NaN` exactly when the text does not
start with a number. -/
theorem parseFloat_eq_nan_iff (cs : List Char) :
    parseFloat cs = JSNum.nan ↔ startsWithNumber cs = false := by
  unfold parseFloat startsWithNumber
  cases trimStart cs with
  | nil => simp
  | cons c r =>
    by_cases h1 : c = '-'
    · simp [h1, neg_eq_nan_iff, parseUnsigned_eq_nan_iff]
    · by_cases h2 : c = '+'
      · simp [h2, parseUnsigned_eq_nan_iff]
      · simp [h1, h2, parseUnsigned_eq_nan_iff]

/-- The value `numRating` is `NaN` exactly when the leading part of the text
does not start with a number. -/
theorem numRating_isNaN_iff (text : String) :
    isNaN (numRating text) = true ↔ startsWithNumber (leadingPart text) = false := by
  unfold numRating leadingPart
  by_cases hs : '/' ∈ text.data
  · simp only [hs, if_true]
    rw [splitOn_headD]
    split
    · rw [isNaN_divBy, isNaN_eq_true_iff, parseFloat_eq_nan_iff]
    · rw [isNaN_eq_true_iff, parseFloat_eq_nan_iff]
  · simp only [hs, if_false]
    rw [takeWhile_ne_of_not_mem '/' text.data hs, isNaN_eq_true_iff, parseFloat_eq_nan_iff]

/-- The value `numRating` of a text for which the reference number is
defined is that number. -/
theorem numRating_of_referenceNumber (text : String) (x : JSNum)
    (h : referenceNumber text = some x) : numRating text = x := by
  unfold referenceNumber at h
  unfold numRating
  split at h
  · rename_i a hs
    obtain ⟨e1, e2⟩ := splitOn_single '/' text.data a hs
    rw [e1]
    simp only [e2, if_false]
    simp only [Option.map_eq_some'] at h
    obtain ⟨q, hq, rfl⟩ := h
    exact parseFloat_numberDenoted a q hq
  · rename_i a b hs
    obtain ⟨e1, -, -⟩ := splitOn_pair '/' text.data a b hs
    have hmem : '/' ∈ text.data := by
      rw [e1]
      simp
    simp only [hmem, if_true, hs, List.headD_cons, List.get?_cons_succ, List.get?_cons_zero,
      Option.some.injEq]
    simp only [Option.map_eq_some'] at h
    obtain ⟨q, hq, rfl⟩ := h
    rw [parseFloat_numberDenoted a q hq]
  · simp at h

theorem numRating_ne_of_guard (text : String) (x : JSNum) (hx : x ≠ JSNum.nan)
    (h : numRating text = x) : text ≠ "" ∧ text ≠ "N/A" := by
  constructor
  · intro e
    subst e
    have hn : numRating "" = JSNum.nan := by decide
    rw [hn] at h
    exact hx h.symm
  · intro e
    subst e
    have hn : numRating "N/A" = JSNum.nan := by decide
    rw [hn] at h
    exact hx h.symm

/-- The star count of a text with a finite `numRating` is the integer nearest
to the exact half of that value, a half going up: the binary64 division by
two does not change it. -/
theorem starsCount_of_fin (text : String) (v : ℚ) (h : numRating text = JSNum.fin v) :
    starsCount text = some (JSNum.fin ((⌊v / 2 + 1 / 2⌋ : ℤ) : ℚ)) := by
  obtain ⟨h1, h2⟩ := numRating_ne_of_guard text (JSNum.fin v) (by simp) h
  have hb := numRating_isBinary64 text v h
  have hr := mathRound_half v hb
  simp only [starsCount, h1, h2, or_self, if_false, h, isNaN, Bool.false_eq_true]
  rw [show (JSNum.fin v).divBy 2 = toBinary64 (v / 2) from rfl, hr]

theorem starsCount_of_posInf (text : String) (h : numRating text = JSNum.posInf) :
    starsCount text = some JSNum.posInf := by
  obtain ⟨h1, h2⟩ := numRating_ne_of_guard text JSNum.posInf (by simp) h
  simp [starsCount, h1, h2, h, isNaN, JSNum.divBy, mathRound]

theorem starsCount_of_negInf (text : String) (h : numRating text = JSNum.negInf) :
    starsCount text = some JSNum.negInf := by
  obtain ⟨h1, h2⟩ := numRating_ne_of_guard text JSNum.negInf (by simp) h
  simp [starsCount, h1, h2, h, isNaN, JSNum.divBy, mathRound]

/-! ## The rating stars -/

/-- Claim C5, as stated, fails: the text `4.999999999999999999` denotes a
number whose half is nearest to 2, and `parseFloat` reads it as the binary64
value 5, so that `starsCount` is 3. -/
theorem starsCount_exact_reference_counterexample :
    referenceValue "4.999999999999999999"
      = some (4999999999999999999 / 1000000000000000000) ∧
    starsCount "4.999999999999999999" = some (JSNum.fin 3) ∧
    ¬ (∃ n : ℤ, starsCount "4.999999999999999999" = some (JSNum.fin (n : ℚ)) ∧
        (n : ℚ) - 1 / 2 ≤ (4999999999999999999 / 1000000000000000000 : ℚ) / 2 ∧
        (4999999999999999999 / 1000000000000000000 : ℚ) / 2 < (n : ℚ) + 1 / 2) := by
  refine ⟨by decide!, by decide!, ?_⟩
  rintro ⟨n, hn, hlo, -⟩
  have h3 : starsCount "4.999999999999999999" = some (JSNum.fin 3) := by decide!
  rw [h3] at hn
  simp only [Option.some.injEq, JSNum.fin.injEq] at hn
  have hn3 : (n : ℚ) = 3 := hn.symm
  rw [hn3] at hlo
  norm_num at hlo

/-- Claim C5, amended: for a rating text `a/b` with `a` a number written in
full, and for a text without a slash that is a number written in full,
`starsCount` is the integer nearest to `v / 2`, a half going up, where `v` is
the binary64 number nearest to the number `a`, divided by ten in binary64
exactly when `b` is `100`, respectively the binary64 number nearest to the
number the text denotes; when `v` is infinite so is `starsCount`; and
`8.5/10`, `85/100` and `7` all give 4. -/
theorem starsCount_refines_binary64_reference :
    (∀ (text : String) (v : ℚ), referenceNumber text = some (JSNum.fin v) →
      ∃ n : ℤ, starsCount text = some (JSNum.fin (n : ℚ)) ∧
        (n : ℚ) - 1 / 2 ≤ v / 2 ∧ v / 2 < (n : ℚ) + 1 / 2) ∧
    (∀ text : String, referenceNumber text = some JSNum.posInf →
      starsCount text = some JSNum.posInf) ∧
    (∀ text : String, referenceNumber text = some JSNum.negInf →
      starsCount text = some JSNum.negInf) ∧
    starsCount "8.5/10" = some (JSNum.fin 4) ∧
    starsCount "85/100" = some (JSNum.fin 4) ∧
    starsCount "7" = some (JSNum.fin 4) := by
  refine ⟨?_, ?_, ?_, by decide!, by decide!, by decide!⟩
  · intro text v h
    refine ⟨⌊v / 2 + 1 / 2⌋,
      starsCount_of_fin text v (numRating_of_referenceNumber text _ h), ?_, ?_⟩
    · have := Int.floor_le (v / 2 + 1 / 2)
      linarith
    · have := Int.lt_floor_add_one (v / 2 + 1 / 2)
      linarith
  · intro text h
    exact starsCount_of_posInf text (numRating_of_referenceNumber text _ h)
  · intro text h
    exact starsCount_of_negInf text (numRating_of_referenceNumber text _ h)

theorem starsCount_refines_binary64_reference_witness :
    referenceNumber "85e-1/10" = some (JSNum.fin (17 / 2)) ∧
    referenceNumber "1e400" = some JSNum.posInf ∧
    (∃ n : ℤ, starsCount "85e-1/10" = some (JSNum.fin (n : ℚ)) ∧
      (n : ℚ) - 1 / 2 ≤ (17 / 2 : ℚ) / 2 ∧ (17 / 2 : ℚ) / 2 < (n : ℚ) + 1 / 2) ∧
    starsCount "1e400" = some JSNum.posInf :=
  ⟨by decide!, by decide!,
   starsCount_refines_binary64_reference.1 "85e-1/10" (17 / 2) (by decide!),
   starsCount_refines_binary64_reference.2.1 "1e400" (by decide!)⟩

/-- Claim C6, as stated, fails: the text `100` gives a rating whose
`starsCount` is 50, and the text `Infinity` one whose `starsCount` is not an
integer. -/
theorem starsCount_out_of_range_counterexample :
    renderRatingStars "100" ≠ none ∧
    starsCount "100" = some (JSNum.fin 50) ∧
    ¬ (∃ n : ℤ, starsCount "100" = some (JSNum.fin (n : ℚ)) ∧ 0 ≤ n ∧ n ≤ 5) ∧
    starsCount "Infinity" = some JSNum.posInf := by
  refine ⟨by decide!, by decide!, ?_, by decide!⟩
  rintro ⟨n, hn, -, h5⟩
  have h50 : starsCount "100" = some (JSNum.fin 50) := by decide!
  rw [h50] at hn
  simp only [Option.some.injEq, JSNum.fin.injEq] at hn
  have : (50 : ℤ) = n := by exact_mod_cast hn
  omega

/-- Claim C6, amended: a rating is always drawn as five stars, so between 0
and 5 of them are filled; and when the parsed value `numRating` lies between
0 and 10, `starsCount` is an integer between 0 and 5 and the number of filled
stars. -/
theorem starsCount_range (text : String) :
    (∀ stars, renderRatingStars text = some stars →
      stars.length = 5 ∧ stars.count true ≤ 5) ∧
    (∀ v : ℚ, numRating text = JSNum.fin v → 0 ≤ v → v ≤ 10 →
      ∃ n : ℤ, starsCount text = some (JSNum.fin (n : ℚ)) ∧ 0 ≤ n ∧ n ≤ 5 ∧
        ∃ stars, renderRatingStars text = some stars ∧ (stars.count true : ℤ) = n) := by
  refine ⟨?_, ?_⟩
  · intro stars h
    unfold renderRatingStars at h
    simp only [Option.map_eq_some'] at h
    obtain ⟨n, -, rfl⟩ := h
    have hlen : ((List.range 5).map (fun i => ltNum i n)).length = 5 := by simp
    refine ⟨hlen, ?_⟩
    calc ((List.range 5).map (fun i => ltNum i n)).count true
        ≤ ((List.range 5).map (fun i => ltNum i n)).length := List.count_le_length _ _
      _ = 5 := hlen
  · intro v hv h0 h10
    have hs := starsCount_of_fin text v hv
    have hlo : 0 ≤ ⌊v / 2 + 1 / 2⌋ := Int.floor_nonneg.2 (by linarith)
    have hhi : ⌊v / 2 + 1 / 2⌋ ≤ 5 := by
      have : ⌊v / 2 + 1 / 2⌋ < 6 := Int.floor_lt.2 (by push_cast; linarith)
      omega
    refine ⟨⌊v / 2 + 1 / 2⌋, hs, hlo, hhi, ?_⟩
    generalize ⌊v / 2 + 1 / 2⌋ = n at hs hlo hhi
    refine ⟨_, by rw [renderRatingStars, hs]; rfl, ?_⟩
    interval_cases n <;> simp [List.range, List.range.loop, ltNum]

theorem starsCount_range_witness :
    numRating "8.5/10" = JSNum.fin (17 / 2) ∧
    ∃ n : ℤ, starsCount "8.5/10" = some (JSNum.fin (n : ℚ)) ∧ 0 ≤ n ∧ n ≤ 5 ∧
      ∃ stars, renderRatingStars "8.5/10" = some stars ∧ (stars.count true : ℤ) = n :=
  ⟨by decide!,
   (starsCount_range "8.5/10").2 (17 / 2) (by decide!) (by norm_num) (by norm_num)⟩

/-- Claim C7, as stated, fails: the texts `8/5` and `7 stars` are of none of
the three forms, and each yields a rating, of four stars. -/
theorem renderRatingStars_lenient_counterexample :
    isRatingForm "8/5" = false ∧
    renderRatingStars "8/5" = some [true, true, true, true, false] ∧
    isRatingForm "7 stars" = false ∧
    renderRatingStars "7 stars" = some [true, true, true, true, false] := by
  refine ⟨by decide, by decide!, by decide, by decide!⟩

/-- Claim C7, amended: `renderRatingStars` yields no rating exactly for the
empty text, the text `N/A`, and the texts whose leading part (up to the first
slash) does not start, after optional white space and an optional sign, with
a number; so a text of one of the three forms yields a rating, and the text
`0` yields a rating of no filled star, which is not the absence of a
rating. -/
theorem renderRatingStars_none_iff :
    (∀ text : String, renderRatingStars text = none ↔
      (text = "" ∨ text = "N/A" ∨ startsWithNumber (leadingPart text) = false)) ∧
    starsCount "0" = some (JSNum.fin 0) ∧
    renderRatingStars "0" = some [false, false, false, false, false] := by
  refine ⟨?_, by decide!, by decide!⟩
  intro text
  have hnan := numRating_isNaN_iff text
  unfold renderRatingStars
  rw [Option.map_eq_none']
  unfold starsCount
  by_cases hg : text = "" ∨ text = "N/A"
  · simp only [hg, if_true, true_iff]
    rcases hg with h | h
    · exact Or.inl h
    · exact Or.inr (Or.inl h)
  · simp only [hg, if_false]
    have h1 : text ≠ "" := fun e => hg (Or.inl e)
    have h2 : text ≠ "N/A" := fun e => hg (Or.inr e)
    by_cases hn : isNaN (numRating text) = true
    · simp [hn, hnan.1 hn]
    · have hs : ¬ (startsWithNumber (leadingPart text) = false) := fun e => hn (hnan.2 e)
      simp [hn, h1, h2, hs]

theorem renderRatingStars_none_iff_witness :
    startsWithNumber (leadingPart "not rated") = false ∧
    renderRatingStars "not rated" = none :=
  ⟨by decide,
   (renderRatingStars_none_iff.1 "not rated").2 (Or.inr (Or.inr (by decide)))⟩

/-! ## Frame of the handlers -/

/-- Claim C11, as stated, fails: from the first render, whose search box is
empty, `searchMovies` ends with the validation error and with
`isInitialState` still true, so the welcome panel is still rendered. -/
theorem searchMovies_blank_keeps_idle_counterexample :
    trim initialState.searchTerm = "" ∧
    (run initialState (searchMovies (answering sampleSearchOk) initialState)).error
      = JSVal.str "Please enter a movie title" ∧
    (run initialState (searchMovies (answering sampleSearchOk) initialState)).isInitialState
      = true ∧
    (run initialState (searchMovies (answering sampleSearchOk) initialState)).isInitialState
      ≠ false ∧
    showsIdle (run initialState (searchMovies (answering sampleSearchOk) initialState))
      = true := by
  refine ⟨by decide, rfl, rfl, by decide, rfl⟩

/-- Claim C11, amended: with a search term that is empty or made of white
space only, `searchMovies` ends with the validation error and leaves
`isInitialState` as it was; with any other term it ends with `isInitialState`
false, whatever the outcome of the request. -/
theorem searchMovies_isInitialState (env : Env) (s : State) :
    ((∀ c ∈ s.searchTerm.data, isWhiteSpace c = true) →
      (run s (searchMovies env s)).error = JSVal.str "Please enter a movie title" ∧
      (run s (searchMovies env s)).isInitialState = s.isInitialState) ∧
    (trim s.searchTerm ≠ "" → (run s (searchMovies env s)).isInitialState = false) := by
  refine ⟨?_, ?_⟩
  · intro hblank
    have h := trim_eq_empty_of_blank s.searchTerm hblank
    simp [searchMovies, h, run, applyEffect]
  · intro hterm
    cases hf : env.fetch (searchUrl env s.searchTerm) with
    | networkError => simp [searchMovies, hterm, searchTry, hf, searchCatch, run, applyEffect]
    | invalidBody => simp [searchMovies, hterm, searchTry, hf, searchCatch, run, applyEffect]
    | decoded data =>
      cases hr : getProp data "Response" with
      | error e =>
        simp [searchMovies, hterm, searchTry, hf, searchBranch, hr, searchCatch, run,
          applyEffect]
      | ok r =>
        obtain ⟨l, hl⟩ := getProp_ok_of_ok data "Response" "Search" r hr
        obtain ⟨e, he⟩ := getProp_ok_of_ok data "Response" "Error" r hr
        by_cases hs : strictEqStr r "True" = true
        · simp [searchMovies, hterm, searchTry, hf, searchBranch, hr, hs, hl, run, applyEffect]
        · simp [searchMovies, hterm, searchTry, hf, searchBranch, hr, hs, he, run, applyEffect]

theorem searchMovies_isInitialState_witness :
    ((run listBlank (searchMovies (answering sampleSearchOk) listBlank)).error
        = JSVal.str "Please enter a movie title" ∧
      (run listBlank (searchMovies (answering sampleSearchOk) listBlank)).isInitialState
        = listBlank.isInitialState) ∧
    (run typedMatrix (searchMovies (answering sampleSearchFail) typedMatrix)).isInitialState
      = false :=
  ⟨(searchMovies_isInitialState (answering sampleSearchOk) listBlank).1 (by decide),
   (searchMovies_isInitialState (answering sampleSearchFail) typedMatrix).2 (by decide)⟩

/-- Claim C12: a successful `getMovieDetails` ends in the prior state with
`selectedMovie` set to the response and `loading` false; `movies`,
`searchTerm`, `isInitialState` and `error` are as before, so an error banner
rendered before the selection is rendered after it, together with the detail
view. -/
theorem getMovieDetails_success_frame (env : Env) (s : State) (imdbID : String)
    (data : JSVal)
    (hfetch : env.fetch (detailUrl env imdbID) = FetchOutcome.decoded data)
    (hresp : getProp data "Response" = Except.ok (JSVal.str "True")) :
    run s (getMovieDetails env imdbID) = { s with selectedMovie := data, loading := false } ∧
    (run s (getMovieDetails env imdbID)).movies = s.movies ∧
    (run s (getMovieDetails env imdbID)).searchTerm = s.searchTerm ∧
    (run s (getMovieDetails env imdbID)).isInitialState = s.isInitialState ∧
    (run s (getMovieDetails env imdbID)).error = s.error ∧
    (showsError s = true →
      showsError (run s (getMovieDetails env imdbID)) = true ∧
      showsDetail (run s (getMovieDetails env imdbID)) = truthy data) := by
  have hrun : run s (getMovieDetails env imdbID)
      = { s with selectedMovie := data, loading := false } := by
    simp [getMovieDetails, detailTry, hfetch, hresp, strictEqStr, run, applyEffect]
  rw [hrun]
  refine ⟨rfl, rfl, rfl, rfl, rfl, ?_⟩
  intro herr
  exact ⟨herr, rfl⟩

theorem getMovieDetails_success_frame_witness :
    showsError listWithError = true ∧
    run listWithError (getMovieDetails (answering sampleDetailOk) "tt0133093")
      = { listWithError with selectedMovie := sampleDetailOk, loading := false } ∧
    showsError (run listWithError (getMovieDetails (answering sampleDetailOk) "tt0133093"))
      = true ∧
    showsDetail (run listWithError (getMovieDetails (answering sampleDetailOk) "tt0133093"))
      = true :=
  have h := getMovieDetails_success_frame (answering sampleDetailOk) listWithError
    "tt0133093" sampleDetailOk rfl rfl
  ⟨by decide, h.1, (h.2.2.2.2.2 (by decide)).1, (h.2.2.2.2.2 (by decide)).2⟩

end MovieFinder
